import Mathlib

/-!
SnWARQ: Stop-and-Wait ARQ with hash validation over a noisy channel.

A shallow embedding of `SnWARQ.hpp` and `NoisyChannel.hpp`.

* Bytes are natural numbers below 256; a `std::size_t` is a natural number below `2 ^ 64`,
  stored in memory as eight bytes, least significant first.
* `std::hash<std::string>` belongs to the standard library, not to the repository, so every
  definition that hashes takes the hash function as its first argument `hasher`.
* The threads of the engines are embedded as one function per loop iteration; the blocking
  queues are lists, oldest element first.
-/

namespace SnWARQ

/-! ## Constants -/

/-- The constant `PACKET_MESSAGE_SIZE` of `SnWARQ.hpp`: payload bytes per packet. -/
def PACKET_MESSAGE_SIZE : Nat := 1024

/-- The constant `END_COMMUNICATION_MESSAGE`, the 19 characters of `$END_COMMUNICATION$`. -/
def END_COMMUNICATION_MESSAGE : List Nat :=
  [36, 69, 78, 68, 95, 67, 79, 77, 77, 85, 78, 73, 67, 65, 84, 73, 79, 78, 36]

/-- The constant `CHANNEL_DEFAULT_AVG_VALID_BYTES` of `Params.hpp`. -/
def CHANNEL_DEFAULT_AVG_VALID_BYTES : Nat := 1024

/-! ## Machine integers and object representation -/

/-- Number of values of a `std::size_t`. -/
def SIZE_T_RANGE : Nat := 2 ^ 64

/-- Conversion of a mathematical integer to `std::size_t` (reduction modulo `2 ^ 64`). -/
def toSizeT (x : Int) : Nat := (x % (2 : Int) ^ 64).toNat

/-- Conversion of a `std::size_t` to `long long` (two's complement). -/
def toLongLong (n : Nat) : Int := if n < 2 ^ 63 then (n : Int) else (n : Int) - (2 : Int) ^ 64

/-- The eight bytes a `std::size_t` occupies in memory, least significant byte first. -/
def sizeBytes (n : Nat) : List Nat := (List.range 8).map fun i => n / 256 ^ i % 256

/-- The `std::size_t` stored in the first eight bytes of a buffer. -/
def readSize (bytes : List Nat) : Nat := (bytes.take 8).foldr (fun b acc => b + 256 * acc) 0

/-- The characters of the C string a `const char*` points to: the bytes before the first
zero byte. -/
def cString (message : List Nat) : List Nat := message.takeWhile fun b => b != 0

/-! ## Digest -/

/-- The function `hashString`: the `std::size_t` the standard hash returns for `input`. -/
def hashString (hasher : List Nat → Nat) (input : List Nat) : Nat :=
  hasher input % SIZE_T_RANGE

/-- The function `validateStringHash`. -/
def validateStringHash (hasher : List Nat → Nat) (input : List Nat) (digest : Nat) : Bool :=
  hasher input % SIZE_T_RANGE == digest

/-! ## Acknowledgment packets -/

/-- The packed class `ARQACKPacket`: 17 bytes, `[flag 1][number 8][digest 8]`.  The flag is
kept as the byte stored in memory; the constructor stores 1 for `true` and 0 for `false`. -/
structure ARQACKPacket where
  acknowledged : Nat
  packetNumber : Nat
  packetDigest : Nat
deriving DecidableEq, Repr

/-- The first `sizeof(ARQACKPacket) - sizeof(std::size_t)` = 9 bytes of the object, the
range the digest is computed over. -/
def ARQACKPacket.hashedBytes (p : ARQACKPacket) : List Nat :=
  p.acknowledged :: sizeBytes p.packetNumber

/-- The 17 bytes of the object, as handed to the channel. -/
def ARQACKPacket.bytes (p : ARQACKPacket) : List Nat :=
  p.hashedBytes ++ sizeBytes p.packetDigest

/-- The constructor `ARQACKPacket(ack, number)`. -/
def ARQACKPacket.new (hasher : List Nat → Nat) (ack : Bool) (number : Nat) : ARQACKPacket :=
  { acknowledged := if ack then 1 else 0
    packetNumber := number
    packetDigest := hashString hasher ((if ack then 1 else 0) :: sizeBytes number) }

/-- The constructor `ARQACKPacket(const void* bytes)`. -/
def ARQACKPacket.ofBytes (bytes : List Nat) : ARQACKPacket :=
  { acknowledged := bytes.headD 0
    packetNumber := readSize (bytes.drop 1)
    packetDigest := readSize (bytes.drop 9) }

/-- The getter `getAcknowledged`: the flag byte read as a `bool`. -/
def ARQACKPacket.getAcknowledged (p : ARQACKPacket) : Bool := p.acknowledged != 0

/-- The method `ARQACKPacket::isValid(number)`. -/
def ARQACKPacket.isValid (hasher : List Nat → Nat) (p : ARQACKPacket) (number : Nat) : Bool :=
  p.getAcknowledged && (p.packetNumber == number) &&
    validateStringHash hasher p.hashedBytes p.packetDigest

/-! ## Data packets -/

/-- The packed class `ARQMessagePacket`: 1048 bytes,
`[digest 8][number 8][message size 8][message 1024]`. -/
structure ARQMessagePacket where
  packetDigest : Nat
  packetNumber : Nat
  packetMessageSize : Nat
  packetMessage : List Nat
deriving DecidableEq, Repr

/-- The bytes of the object after the digest field, the range the digest is computed
over (`sizeof(ARQMessagePacket) - sizeof(std::size_t)` bytes from offset 8). -/
def ARQMessagePacket.hashedBytes (p : ARQMessagePacket) : List Nat :=
  sizeBytes p.packetNumber ++ sizeBytes p.packetMessageSize ++ p.packetMessage

/-- The bytes of the object, as handed to the channel. -/
def ARQMessagePacket.bytes (p : ARQMessagePacket) : List Nat :=
  sizeBytes p.packetDigest ++ p.hashedBytes

/-- The payload array after the constructor ran: zero-initialised, then
`min(PACKET_MESSAGE_SIZE, size)` bytes copied from `message`, the bytes the source pointer
points to. -/
def messageArea (message : List Nat) (size : Nat) : List Nat :=
  message.take (min PACKET_MESSAGE_SIZE size) ++
    List.replicate (PACKET_MESSAGE_SIZE - min PACKET_MESSAGE_SIZE size) 0

/-- The constructor `ARQMessagePacket(number, message, size)`. -/
def ARQMessagePacket.new (hasher : List Nat → Nat) (number : Nat) (message : List Nat)
    (size : Nat) : ARQMessagePacket :=
  { packetDigest :=
      hashString hasher (sizeBytes number ++ sizeBytes size ++ messageArea message size)
    packetNumber := number
    packetMessageSize := size
    packetMessage := messageArea message size }

/-- The constructor `ARQMessagePacket(const void* bytes)`. -/
def ARQMessagePacket.ofBytes (bytes : List Nat) : ARQMessagePacket :=
  { packetDigest := readSize bytes
    packetNumber := readSize (bytes.drop 8)
    packetMessageSize := readSize (bytes.drop 16)
    packetMessage := (bytes.drop 24).take PACKET_MESSAGE_SIZE }

/-- The method `ARQMessagePacket::isValid()`. -/
def ARQMessagePacket.isValid (hasher : List Nat → Nat) (p : ARQMessagePacket) : Bool :=
  validateStringHash hasher p.hashedBytes p.packetDigest

/-! ## Sender -/

/-- The class `SnWARQSender`, reduced to the outstanding queue its threads share. -/
structure SnWARQSender where
  packetsBuffer : List ARQMessagePacket
deriving DecidableEq, Repr

/-- The call `std::lldiv(size, PACKET_MESSAGE_SIZE)`: quotient and remainder of the
truncating division of `size`, converted to `long long`. -/
def lldiv (size : Nat) : Int × Int :=
  (Int.tdiv (toLongLong size) PACKET_MESSAGE_SIZE, Int.tmod (toLongLong size) PACKET_MESSAGE_SIZE)

/-- The local `packets` of `sendMessage`: `div.quot + (div.rem > 0)` as a `std::size_t`. -/
def packetCount (size : Nat) : Nat :=
  toSizeT ((lldiv size).1 + if (lldiv size).2 > 0 then 1 else 0)

/-- The packet the loop of `sendMessage` appends at `index`. -/
def fragmentPacket (hasher : List Nat → Nat) (message : List Nat) (size index : Nat) :
    ARQMessagePacket :=
  ARQMessagePacket.new hasher ((index + 2) % SIZE_T_RANGE)
    (message.drop (index * PACKET_MESSAGE_SIZE % SIZE_T_RANGE))
    (if index = (packetCount size + SIZE_T_RANGE - 1) % SIZE_T_RANGE
      then toSizeT (lldiv size).2 else PACKET_MESSAGE_SIZE)

/-- The method `sendMessage(const char* message, size)`; `message` holds the bytes the
pointer points to. The comparison with `END_COMMUNICATION_MESSAGE` is the one between a
`const char*` and a `std::string`, which reads `message` as a C string. -/
def SnWARQSender.sendMessage (hasher : List Nat → Nat) (s : SnWARQSender) (message : List Nat)
    (size : Nat) : SnWARQSender :=
  if cString message ≠ END_COMMUNICATION_MESSAGE then
    { packetsBuffer :=
        s.packetsBuffer ++
          [ARQMessagePacket.new hasher 1 (sizeBytes (packetCount size)) 8] ++
          (List.range (packetCount size)).map (fragmentPacket hasher message size) }
  else
    { packetsBuffer := s.packetsBuffer ++ [ARQMessagePacket.new hasher 0 message 0] }

/-- The method `sendMessage(const std::string&)`: `data()` points to the characters
followed by the terminating zero byte. -/
def SnWARQSender.sendMessageString (hasher : List Nat → Nat) (s : SnWARQSender)
    (messageString : List Nat) : SnWARQSender :=
  s.sendMessage hasher (messageString ++ [0]) messageString.length

/-! ## Receiver -/

/-- The class `SnWARQReceiver`: assembly state and output queue. -/
structure SnWARQReceiver where
  currentMessagePackets : Nat
  lastMessageNumber : Nat
  currentMessage : List Nat
  receivedMessages : List (List Nat)
deriving DecidableEq, Repr

/-- A freshly constructed receiver. -/
def SnWARQReceiver.init : SnWARQReceiver :=
  { currentMessagePackets := 0, lastMessageNumber := 0, currentMessage := [],
    receivedMessages := [] }

/-- The method `handleMessagePacket`.  The appended bytes are the first
`getMessageSize()` bytes of the payload array (for a size above `PACKET_MESSAGE_SIZE` the
source reads past the array; the embedding stops at its end). -/
def SnWARQReceiver.handleMessagePacket (r : SnWARQReceiver) (messagePacket : ARQMessagePacket) :
    SnWARQReceiver :=
  if messagePacket.packetNumber = 0 then
    { r with receivedMessages := r.receivedMessages ++ [END_COMMUNICATION_MESSAGE] }
  else if messagePacket.packetNumber = 1 then
    { r with
      lastMessageNumber := 1
      currentMessage := []
      currentMessagePackets := readSize messagePacket.packetMessage }
  else if messagePacket.packetNumber ≤ r.lastMessageNumber then
    r
  else
    let currentMessage :=
      r.currentMessage ++ messagePacket.packetMessage.take messagePacket.packetMessageSize
    { lastMessageNumber := messagePacket.packetNumber
      currentMessage := currentMessage
      currentMessagePackets := (r.currentMessagePackets + SIZE_T_RANGE - 1) % SIZE_T_RANGE
      receivedMessages :=
        if r.currentMessagePackets = 1 then r.receivedMessages ++ [currentMessage]
        else r.receivedMessages }

/-- The method `receiveMessage`: the oldest completed message and the receiver without it;
`none` while the output queue is empty (the call blocks). -/
def SnWARQReceiver.receiveMessage (r : SnWARQReceiver) : Option (List Nat × SnWARQReceiver) :=
  match r.receivedMessages with
  | [] => none
  | message :: rest => some (message, { r with receivedMessages := rest })

/-! ## Iterations of the engine threads -/

/-- Value of `sizeof(ARQMessagePacket)`. -/
def ARQMessagePacket.sizeof : Nat := 24 + PACKET_MESSAGE_SIZE

/-- Value of `sizeof(ARQACKPacket)`. -/
def ARQACKPacket.sizeof : Nat := 17

/-- One iteration of the loop of `SnWARQSender::sendingRoutine` (the transmit loop): the
packet handed to `sendToB`, the acknowledgment handed to `sendToA`, and whether the loop
goes on. The queue is only read. -/
def SnWARQSender.sendingRoutine (hasher : List Nat → Nat) (s : SnWARQSender) :
    Option ARQMessagePacket × Option ARQACKPacket × Bool :=
  match s.packetsBuffer with
  | [] => (none, none, true)
  | front :: _ =>
    if front.packetNumber = 0 then (some front, some (ARQACKPacket.new hasher true 0), false)
    else (some front, none, true)

/-- One iteration of the loop of `SnWARQSender::receivingRoutine` (the ack listener) on the
buffer `recvFromA` returned: the sender afterwards and whether the loop goes on. The result
is `none` when the iteration calls `front()` on an empty list, which is undefined. -/
def SnWARQSender.receivingRoutine (hasher : List Nat → Nat) (s : SnWARQSender)
    (buffer : List Nat) : Option (SnWARQSender × Bool) :=
  let ackPacket := ARQACKPacket.ofBytes buffer
  if ackPacket.isValid hasher 0 then some (s, false)
  else
    match s.packetsBuffer with
    | [] => none
    | front :: rest =>
      if ackPacket.isValid hasher front.packetNumber then some ({ packetsBuffer := rest }, true)
      else some (s, true)

/-- One iteration of the loop of `SnWARQReceiver::receivingRoutine` on the buffer
`recvFromB` returned: the receiver afterwards, the acknowledgment handed to `sendToA`, and
whether the loop goes on. -/
def SnWARQReceiver.receivingRoutine (hasher : List Nat → Nat) (r : SnWARQReceiver)
    (buffer : List Nat) : SnWARQReceiver × ARQACKPacket × Bool :=
  let messagePacket := ARQMessagePacket.ofBytes buffer
  if messagePacket.isValid hasher then
    (r.handleMessagePacket messagePacket,
      ARQACKPacket.new hasher true messagePacket.packetNumber,
      messagePacket.packetNumber != 0)
  else
    (r, ARQACKPacket.new hasher false messagePacket.packetNumber, true)

/-! ## Noisy channel -/

/-- The function `flipRandomBit`; `r₁` and `r₂` are the two values `rand()` returns. -/
def flipRandomBit (message : List Nat) (r₁ r₂ : Nat) : List Nat :=
  message.modify (fun b => b ^^^ (1 <<< (r₂ % 8))) (r₁ % max 1 message.length)

/-- The statement `if ( bytes > size ) bytes -= size; else { bytes = avgValidBytes - (size -
bytes); flip }` of `sendToA` and `sendToB`, in `std::size_t` arithmetic: the new value of
the counter and whether a bit of the packet is flipped. -/
def validBytesAfter (avgValidBytes bytes size : Nat) : Nat × Bool :=
  if bytes > size then (bytes - size, false)
  else ((avgValidBytes + SIZE_T_RANGE - (size - bytes)) % SIZE_T_RANGE, true)

/-- The class `NoisyChannel`. The fields `bytesA` and `bytesB` are the function-local
static counters `bytes` of `sendToA` and `sendToB`, both initialised to `avgValidBytes`. -/
structure NoisyChannel where
  avgValidBytes : Nat
  bytesA : Nat
  bytesB : Nat
  totalPacketsSentToA : Nat
  totalPacketsSentToB : Nat
  totalPacketsReceivedFromA : Nat
  totalPacketsReceivedFromB : Nat
  bufferA : List (List Nat)
  bufferB : List (List Nat)
deriving DecidableEq, Repr

/-- The constructor `NoisyChannel(avgValidBytes, avgMilliSecsDelay)`; delays are not
part of the embedding. -/
def NoisyChannel.new (avgValidBytes : Nat) : NoisyChannel :=
  { avgValidBytes := avgValidBytes, bytesA := avgValidBytes, bytesB := avgValidBytes,
    totalPacketsSentToA := 0, totalPacketsSentToB := 0, totalPacketsReceivedFromA := 0,
    totalPacketsReceivedFromB := 0, bufferA := [], bufferB := [] }

/-- The method `sendToA(message, size)`; `r₁`, `r₂` are the values `rand()` would return. -/
def NoisyChannel.sendToA (c : NoisyChannel) (message : List Nat) (size r₁ r₂ : Nat) :
    NoisyChannel :=
  { c with
    bufferA := c.bufferA ++
      [if (validBytesAfter c.avgValidBytes c.bytesA size).2
        then flipRandomBit (message.take size) r₁ r₂ else message.take size]
    bytesA := (validBytesAfter c.avgValidBytes c.bytesA size).1
    totalPacketsSentToA := (c.totalPacketsSentToA + 1) % SIZE_T_RANGE }

/-- The method `sendToB(message, size)`; `r₁`, `r₂` are the values `rand()` would return. -/
def NoisyChannel.sendToB (c : NoisyChannel) (message : List Nat) (size r₁ r₂ : Nat) :
    NoisyChannel :=
  { c with
    bufferB := c.bufferB ++
      [if (validBytesAfter c.avgValidBytes c.bytesB size).2
        then flipRandomBit (message.take size) r₁ r₂ else message.take size]
    bytesB := (validBytesAfter c.avgValidBytes c.bytesB size).1
    totalPacketsSentToB := (c.totalPacketsSentToB + 1) % SIZE_T_RANGE }

/-- The method `recvFromA`: the oldest buffer and the channel without it; `none` while
the queue is empty (the call blocks). -/
def NoisyChannel.recvFromA (c : NoisyChannel) : Option (List Nat × NoisyChannel) :=
  match c.bufferA with
  | [] => none
  | message :: rest =>
    some (message, { c with
      bufferA := rest
      totalPacketsReceivedFromA := (c.totalPacketsReceivedFromA + 1) % SIZE_T_RANGE })

/-- The method `recvFromB`: the oldest buffer and the channel without it; `none` while
the queue is empty (the call blocks). -/
def NoisyChannel.recvFromB (c : NoisyChannel) : Option (List Nat × NoisyChannel) :=
  match c.bufferB with
  | [] => none
  | message :: rest =>
    some (message, { c with
      bufferB := rest
      totalPacketsReceivedFromB := (c.totalPacketsReceivedFromB + 1) % SIZE_T_RANGE })

/-- The counter of one direction after a sequence of sends of the given sizes. -/
def validBytesAfterSends (avgValidBytes bytes : Nat) (sizes : List Nat) : Nat :=
  sizes.foldl (fun b size => (validBytesAfter avgValidBytes b size).1) bytes

/-! ## Compositions used in the statements -/

/-- Delivery of a list of packets to `handleMessagePacket`, in order and once each. -/
def SnWARQReceiver.handleMessagePackets (r : SnWARQReceiver) (packets : List ARQMessagePacket) :
    SnWARQReceiver :=
  packets.foldl SnWARQReceiver.handleMessagePacket r

/-- The receive loop of the receiver run on the buffers the channel delivers, oldest first,
until the loop ends or the buffers are used up. -/
def SnWARQReceiver.receiveAll (hasher : List Nat → Nat) (r : SnWARQReceiver) :
    List (List Nat) → SnWARQReceiver
  | [] => r
  | buffer :: rest =>
    if (r.receivingRoutine hasher buffer).2.2 then
      SnWARQReceiver.receiveAll hasher (r.receivingRoutine hasher buffer).1 rest
    else (r.receivingRoutine hasher buffer).1

/-- The messages `count` successive calls of `receiveMessage` return, with the receiver
afterwards; `none` when one of the calls finds the output queue empty. -/
def SnWARQReceiver.receiveMessages : Nat → SnWARQReceiver →
    Option (List (List Nat) × SnWARQReceiver)
  | 0, r => some ([], r)
  | count + 1, r =>
    match r.receiveMessage with
    | none => none
    | some (message, r') =>
      match SnWARQReceiver.receiveMessages count r' with
      | none => none
      | some (messages, r'') => some (message :: messages, r'')

/-- The sender after `sendMessage(std::string)` was called on each message in order. -/
def SnWARQSender.sendMessages (hasher : List Nat → Nat) (s : SnWARQSender)
    (messages : List (List Nat)) : SnWARQSender :=
  messages.foldl (SnWARQSender.sendMessageString hasher) s


/-- The packets `sendMessage(std::string)` appends for a message it does not take for the
sentinel: the header, then the fragments. -/
def messagePackets (hasher : List Nat → Nat) (messageString : List Nat) :
    List ARQMessagePacket :=
  ARQMessagePacket.new hasher 1 (sizeBytes (packetCount messageString.length)) 8 ::
    (List.range (packetCount messageString.length)).map
      (fragmentPacket hasher (messageString ++ [0]) messageString.length)

/-! ## Composed system -/

/-- Sender, receiver and channel of one run as `main` sets them up, with a flag per engine
thread telling whether its loop is still running, and the record of the packets handed to
`sendToB` (sender-to-receiver link) and to `sendToA` (receiver-to-sender link), oldest
first, as they were before the channel altered any bit. -/
structure System where
  channel : NoisyChannel
  sender : SnWARQSender
  receiver : SnWARQReceiver
  sendingRoutineRunning : Bool
  senderReceivingRoutineRunning : Bool
  receiverReceivingRoutineRunning : Bool
  sentToB : List ARQMessagePacket
  sentToA : List ARQACKPacket
deriving DecidableEq, Repr

/-- The system right after the channel, the receiver and the sender were constructed. -/
def System.init (avgValidBytes : Nat) : System :=
  { channel := NoisyChannel.new avgValidBytes
    sender := { packetsBuffer := [] }
    receiver := SnWARQReceiver.init
    sendingRoutineRunning := true
    senderReceivingRoutineRunning := true
    receiverReceivingRoutineRunning := true
    sentToB := []
    sentToA := [] }

/-- What the scheduler lets happen next: a call of `sendMessage(std::string)` or of
`receiveMessage` by the application, or one loop iteration of one of the three engine
threads; the numbers are the values `rand()` returns inside the channel. -/
inductive Event where
  | sendMessage (messageString : List Nat)
  | sendingRoutine (r₁ r₂ r₃ r₄ : Nat)
  | senderReceivingRoutine
  | receiverReceivingRoutine (r₁ r₂ : Nat)
  | receiveMessage
deriving DecidableEq, Repr

/-- The system after one event; `none` when the event cannot happen (the thread has ended,
or it blocks on an empty queue) or has no defined behaviour. -/
def System.step (hasher : List Nat → Nat) (σ : System) : Event → Option System
  | Event.sendMessage messageString =>
    some { σ with sender := σ.sender.sendMessageString hasher messageString }
  | Event.sendingRoutine r₁ r₂ r₃ r₄ =>
    if σ.sendingRoutineRunning then
      match σ.sender.sendingRoutine hasher with
      | (none, _, running) => some { σ with sendingRoutineRunning := running }
      | (some packet, none, running) =>
        some { σ with
          channel := σ.channel.sendToB packet.bytes ARQMessagePacket.sizeof r₁ r₂
          sentToB := σ.sentToB ++ [packet]
          sendingRoutineRunning := running }
      | (some packet, some ack, running) =>
        some { σ with
          channel := (σ.channel.sendToB packet.bytes ARQMessagePacket.sizeof r₁ r₂).sendToA
            ack.bytes ARQACKPacket.sizeof r₃ r₄
          sentToB := σ.sentToB ++ [packet]
          sentToA := σ.sentToA ++ [ack]
          sendingRoutineRunning := running }
    else none
  | Event.senderReceivingRoutine =>
    if σ.senderReceivingRoutineRunning then
      match σ.channel.recvFromA with
      | none => none
      | some (buffer, channel) =>
        match σ.sender.receivingRoutine hasher buffer with
        | none => none
        | some (sender, running) =>
          some { σ with
            channel := channel
            sender := sender
            senderReceivingRoutineRunning := running }
    else none
  | Event.receiverReceivingRoutine r₁ r₂ =>
    if σ.receiverReceivingRoutineRunning then
      match σ.channel.recvFromB with
      | none => none
      | some (buffer, channel) =>
        some { σ with
          channel := channel.sendToA (σ.receiver.receivingRoutine hasher buffer).2.1.bytes
            ARQACKPacket.sizeof r₁ r₂
          receiver := (σ.receiver.receivingRoutine hasher buffer).1
          sentToA := σ.sentToA ++ [(σ.receiver.receivingRoutine hasher buffer).2.1]
          receiverReceivingRoutineRunning := (σ.receiver.receivingRoutine hasher buffer).2.2 }
    else none
  | Event.receiveMessage =>
    match σ.receiver.receiveMessage with
    | none => none
    | some (_, receiver) => some { σ with receiver := receiver }

/-- The system after a sequence of events, `none` when one of them cannot happen. -/
def System.run (hasher : List Nat → Nat) : System → List Event → Option System
  | σ, [] => some σ
  | σ, event :: events =>
    match σ.step hasher event with
    | none => none
    | some σ' => System.run hasher σ' events

/-- Number of data packets with sequence number 0 in a record of the forward link. -/
def sequenceZeroPackets (sent : List ARQMessagePacket) : Nat :=
  sent.countP fun p => p.packetNumber == 0

/-- Number of acknowledgment packets, positive or negative, with sequence number 0 in a
record of the reverse link. -/
def sequenceZeroAcks (sent : List ARQACKPacket) : Nat :=
  sent.countP fun a => a.packetNumber == 0

/-- Number of positive acknowledgments with sequence number 0 in a record of the reverse
link. -/
def positiveSequenceZeroAcks (sent : List ARQACKPacket) : Nat :=
  sent.countP fun a => a.getAcknowledged && (a.packetNumber == 0)

/-- Number of calls of `sendMessage` with the sentinel in a sequence of events. -/
def sentinelCalls (events : List Event) : Nat :=
  events.countP fun e => e == Event.sendMessage END_COMMUNICATION_MESSAGE

/-- The run in which the application sends the sentinel, the transmit loop runs once, the
receiver loop runs once and the ack listener runs once. -/
def terminationRun : List Event :=
  [Event.sendMessage END_COMMUNICATION_MESSAGE, Event.sendingRoutine 0 0 0 0,
    Event.receiverReceivingRoutine 0 0, Event.senderReceivingRoutine]

/-! ## Measures on buffers and on sequences of sends -/

/-- Number of bit positions, among the eight of a byte, in which two bytes differ. -/
def differingBitsOfByte (x y : Nat) : Nat :=
  (List.range 8).countP fun k => x.testBit k != y.testBit k

/-- Number of bit positions in which two buffers of the same length differ. -/
def differingBits (a b : List Nat) : Nat :=
  ((a.zip b).map fun xy => differingBitsOfByte xy.1 xy.2).sum

/-- Number of sends, in a sequence of sends of the given sizes on one direction, whose
packet gets a bit flipped; `bytes` is the counter of the direction before the first send. -/
def corruptedSends (avgValidBytes bytes : Nat) : List Nat → Nat
  | [] => 0
  | size :: sizes =>
    (if (validBytesAfter avgValidBytes bytes size).2 then 1 else 0) +
      corruptedSends avgValidBytes (validBytesAfter avgValidBytes bytes size).1 sizes

/-! ## The two directions of the channel -/

/-- The endpoint a packet is sent to: `A` is read by the sender, `B` by the receiver. -/
inductive Direction where
  | A
  | B
deriving DecidableEq, Repr

/-- The opposite direction. -/
def Direction.other : Direction → Direction
  | Direction.A => Direction.B
  | Direction.B => Direction.A

/-- The queue of a direction: `bufferA` or `bufferB`. -/
def NoisyChannel.buffer (c : NoisyChannel) : Direction → List (List Nat)
  | Direction.A => c.bufferA
  | Direction.B => c.bufferB

/-- The counter of a direction: the static `bytes` of `sendToA` or of `sendToB`. -/
def NoisyChannel.validBytes (c : NoisyChannel) : Direction → Nat
  | Direction.A => c.bytesA
  | Direction.B => c.bytesB

/-- The method `sendToA` or `sendToB`, by direction. -/
def NoisyChannel.send (c : NoisyChannel) (d : Direction) (message : List Nat)
    (size r₁ r₂ : Nat) : NoisyChannel :=
  match d with
  | Direction.A => c.sendToA message size r₁ r₂
  | Direction.B => c.sendToB message size r₁ r₂

/-- The method `recvFromA` or `recvFromB`, by direction. -/
def NoisyChannel.recv (c : NoisyChannel) (d : Direction) : Option (List Nat × NoisyChannel) :=
  match d with
  | Direction.A => c.recvFromA
  | Direction.B => c.recvFromB

/-- The buffers `count` successive calls of `recv` on one direction return, with the channel
afterwards; `none` when one of the calls finds the queue empty. -/
def NoisyChannel.recvMany (d : Direction) : Nat → NoisyChannel →
    Option (List (List Nat) × NoisyChannel)
  | 0, c => some ([], c)
  | count + 1, c =>
    match c.recv d with
    | none => none
    | some (message, c') =>
      match NoisyChannel.recvMany d count c' with
      | none => none
      | some (messages, c'') => some (message :: messages, c'')

/-! ## Sequences of sends on one direction of the channel -/

/-- The channel after a sequence of `send` calls on one direction, oldest first; an entry is
the buffer sent, whose length is the size passed, and the two values `rand()` returns. -/
def NoisyChannel.sendAll (d : Direction) (c : NoisyChannel)
    (sends : List (List Nat × Nat × Nat)) : NoisyChannel :=
  sends.foldl (fun c x => c.send d x.1 x.1.length x.2.1 x.2.2) c

/-- The buffers sent by a sequence of `send` calls, oldest first. -/
def sentBuffers (sends : List (List Nat × Nat × Nat)) : List (List Nat) :=
  sends.map fun x => x.1

/-- The number of bytes sent by a sequence of `send` calls. -/
def sentBytes (sends : List (List Nat × Nat × Nat)) : Nat :=
  (sends.map fun x => x.1.length).sum

/-- Number of queued buffers that are not a byte-for-byte copy of the buffer sent at the same
position. -/
def alteredBuffers (sent queued : List (List Nat)) : Nat :=
  (sent.zip queued).countP fun p => p.1 != p.2

/-- Total number of bits in which the queued buffers differ from the buffers sent at the
same positions. -/
def alteredBits (sent queued : List (List Nat)) : Nat :=
  ((sent.zip queued).map fun p => differingBits p.1 p.2).sum

/-! ## Theorems -/



theorem length_sizeBytes (n : Nat) : (sizeBytes n).length = 8 := by
  simp [sizeBytes]

theorem readSize_sizeBytes_append (n : Nat) (h : n < SIZE_T_RANGE) (rest : List Nat) :
    readSize (sizeBytes n ++ rest) = n := by
  simp only [SIZE_T_RANGE] at h
  simp [readSize, sizeBytes, List.range, List.range.loop]
  omega

theorem readSize_sizeBytes (n : Nat) (h : n < SIZE_T_RANGE) : readSize (sizeBytes n) = n := by
  simpa using readSize_sizeBytes_append n h []

theorem lldiv_of_lt (size : Nat) (h : size < 2 ^ 63) :
    lldiv size = (((size / 1024 : Nat) : Int), ((size % 1024 : Nat) : Int)) := by
  simp only [lldiv, toLongLong, if_pos h, PACKET_MESSAGE_SIZE]
  rw [Int.tdiv_eq_ediv (Int.ofNat_nonneg _) (Int.ofNat_nonneg _),
    Int.tmod_eq_emod (Int.ofNat_nonneg _) (Int.ofNat_nonneg _)]
  simp

theorem packetCount_of_lt (size : Nat) (h : size < 2 ^ 63) :
    packetCount size = (size + 1023) / 1024 := by
  simp only [packetCount, lldiv_of_lt size h, toSizeT]
  split <;> rename_i h1 <;> simp at h1 <;> omega

theorem toSizeT_rem_of_lt (size : Nat) (h : size < 2 ^ 63) :
    toSizeT (lldiv size).2 = size % 1024 := by
  simp only [lldiv_of_lt size h, toSizeT]
  omega

theorem length_messageArea_le (message : List Nat) (size : Nat) :
    (messageArea message size).length ≤ PACKET_MESSAGE_SIZE := by
  simp only [messageArea, List.length_append, List.length_take, List.length_replicate]
  omega

theorem take_messageArea (message : List Nat) (size : Nat) (h : size ≤ PACKET_MESSAGE_SIZE)
    (hm : size ≤ message.length) :
    (messageArea message size).take size = message.take size := by
  simp only [messageArea, Nat.min_eq_right h]
  rw [List.take_append_of_le_length (by simp [hm]), List.take_take, Nat.min_self]

theorem readSize_messageArea_sizeBytes (n : Nat) (h : n < SIZE_T_RANGE) :
    readSize (messageArea (sizeBytes n) 8) = n := by
  have h8 : min PACKET_MESSAGE_SIZE 8 = 8 := by decide
  rw [messageArea, h8, List.take_of_length_le (by rw [length_sizeBytes]),
    readSize_sizeBytes_append n h]

/-- A fragment that is newer than the last accepted one is appended. -/
theorem handleMessagePacket_fragment (r : SnWARQReceiver) (p : ARQMessagePacket)
    (h2 : 2 ≤ p.packetNumber) (hlast : r.lastMessageNumber < p.packetNumber) :
    r.handleMessagePacket p =
      { lastMessageNumber := p.packetNumber
        currentMessage := r.currentMessage ++ p.packetMessage.take p.packetMessageSize
        currentMessagePackets := (r.currentMessagePackets + SIZE_T_RANGE - 1) % SIZE_T_RANGE
        receivedMessages :=
          if r.currentMessagePackets = 1 then
            r.receivedMessages ++ [r.currentMessage ++ p.packetMessage.take p.packetMessageSize]
          else r.receivedMessages } := by
  have h0 : p.packetNumber ≠ 0 := by omega
  have h1 : p.packetNumber ≠ 1 := by omega
  have h3 : ¬ p.packetNumber ≤ r.lastMessageNumber := by omega
  simp [SnWARQReceiver.handleMessagePacket, h0, h1, h3]

theorem handleMessagePacket_header (r : SnWARQReceiver) (p : ARQMessagePacket)
    (h : p.packetNumber = 1) :
    r.handleMessagePacket p =
      { r with
        lastMessageNumber := 1
        currentMessage := []
        currentMessagePackets := readSize p.packetMessage } := by
  simp [SnWARQReceiver.handleMessagePacket, h]

theorem handleMessagePacket_zero (r : SnWARQReceiver) (p : ARQMessagePacket)
    (h : p.packetNumber = 0) :
    r.handleMessagePacket p =
      { r with receivedMessages := r.receivedMessages ++ [END_COMMUNICATION_MESSAGE] } := by
  simp [SnWARQReceiver.handleMessagePacket, h]

/-- The fragment `sendMessage` appends at `index` for a message of `size < 2 ^ 63` bytes. -/
theorem fragmentPacket_of_lt (hasher : List Nat → Nat) (message : List Nat) (size index : Nat)
    (h : size < 2 ^ 63) (hi : index < (size + 1023) / 1024) :
    fragmentPacket hasher message size index =
      ARQMessagePacket.new hasher (index + 2) (message.drop (index * 1024))
        (if index = (size + 1023) / 1024 - 1 then size % 1024 else 1024) := by
  have e1 : (index + 2) % SIZE_T_RANGE = index + 2 := by
    simp only [SIZE_T_RANGE]; omega
  have e2 : index * 1024 % SIZE_T_RANGE = index * 1024 := by
    simp only [SIZE_T_RANGE]; omega
  have e3 : (packetCount size + SIZE_T_RANGE - 1) % SIZE_T_RANGE = (size + 1023) / 1024 - 1 := by
    rw [packetCount_of_lt size h]; simp only [SIZE_T_RANGE]; omega
  simp only [fragmentPacket, e1, e2, e3, toSizeT_rem_of_lt size h, PACKET_MESSAGE_SIZE]

/-- The receiver after the header and the first `k` of the fragments of a message, all of
them full. -/
theorem handleMessagePackets_full_fragments (hasher : List Nat → Nat) (M : List Nat)
    (R : List (List Nat)) (h : M.length < 2 ^ 63) (k : Nat)
    (hk : k ≤ (M.length + 1023) / 1024 - 1) :
    SnWARQReceiver.handleMessagePackets
        { currentMessagePackets := (M.length + 1023) / 1024, lastMessageNumber := 1,
          currentMessage := [], receivedMessages := R }
        ((List.range k).map (fragmentPacket hasher (M ++ [0]) M.length)) =
      { currentMessagePackets := (M.length + 1023) / 1024 - k, lastMessageNumber := k + 1,
        currentMessage := M.take (k * 1024), receivedMessages := R } := by
  induction k with
  | zero => simp [SnWARQReceiver.handleMessagePackets]
  | succ k ih =>
    have ih' := ih (by omega)
    simp only [SnWARQReceiver.handleMessagePackets] at ih' ⊢
    rw [List.range_succ, List.map_append, List.foldl_append, ih']
    simp only [List.map_cons, List.map_nil, List.foldl_cons, List.foldl_nil]
    rw [fragmentPacket_of_lt hasher _ _ k h (by omega)]
    rw [handleMessagePacket_fragment _ _ (by simp [ARQMessagePacket.new])
      (by simp [ARQMessagePacket.new])]
    have hne : ¬ k = (M.length + 1023) / 1024 - 1 := by omega
    have hcnt : ¬ (M.length + 1023) / 1024 - k = 1 := by omega
    simp only [ARQMessagePacket.new, if_neg hne, if_neg hcnt]
    have hlen : 1024 ≤ (List.drop (k * 1024) (M ++ [0])).length := by
      simp only [List.length_drop, List.length_append, List.length_singleton]; omega
    rw [take_messageArea _ _ (by decide) hlen]
    have e1 : ((M.length + 1023) / 1024 - k + SIZE_T_RANGE - 1) % SIZE_T_RANGE =
        (M.length + 1023) / 1024 - (k + 1) := by
      simp only [SIZE_T_RANGE]; omega
    have e2 : List.take (k * 1024) M ++ List.take 1024 (List.drop (k * 1024) (M ++ [0])) =
        List.take ((k + 1) * 1024) M := by
      rw [List.drop_append_of_le_length (by omega), List.take_append_of_le_length
        (by simp only [List.length_drop]; omega)]
      rw [Nat.add_mul, Nat.one_mul, List.take_add]
    rw [e1, e2]

/-- The packets `sendMessage(std::string)` appends for a message it does not take for the
sentinel. -/
theorem sendMessageString_packetsBuffer (hasher : List Nat → Nat) (s : SnWARQSender)
    (M : List Nat) (hs : cString (M ++ [0]) ≠ END_COMMUNICATION_MESSAGE) :
    (s.sendMessageString hasher M).packetsBuffer =
      s.packetsBuffer ++
        (ARQMessagePacket.new hasher 1 (sizeBytes (packetCount M.length)) 8 ::
          (List.range (packetCount M.length)).map (fragmentPacket hasher (M ++ [0]) M.length)) := by
  simp [SnWARQSender.sendMessageString, SnWARQSender.sendMessage, hs]

/-- The receiver after the header and all fragments of a non-empty message were handled:
the completed message is the input without the bytes of a last fragment of logical length
zero. -/
theorem handleMessagePackets_message (hasher : List Nat → Nat) (M : List Nat)
    (r : SnWARQReceiver) (h : M.length < 2 ^ 63) (hpos : 0 < M.length) :
    r.handleMessagePackets
        (ARQMessagePacket.new hasher 1 (sizeBytes (packetCount M.length)) 8 ::
          (List.range (packetCount M.length)).map (fragmentPacket hasher (M ++ [0]) M.length)) =
      { currentMessagePackets := 0
        lastMessageNumber := (M.length + 1023) / 1024 + 1
        currentMessage := M.take (((M.length + 1023) / 1024 - 1) * 1024 + M.length % 1024)
        receivedMessages := r.receivedMessages ++
          [M.take (((M.length + 1023) / 1024 - 1) * 1024 + M.length % 1024)] } := by
  have hN : packetCount M.length = (M.length + 1023) / 1024 := packetCount_of_lt _ h
  have hN1 : (M.length + 1023) / 1024 = ((M.length + 1023) / 1024 - 1) + 1 := by omega
  have hNlt : (M.length + 1023) / 1024 < SIZE_T_RANGE := by
    simp only [SIZE_T_RANGE]; omega
  rw [hN]
  simp only [SnWARQReceiver.handleMessagePackets, List.foldl_cons]
  rw [handleMessagePacket_header _ _ (by simp [ARQMessagePacket.new])]
  simp only [ARQMessagePacket.new]
  rw [readSize_messageArea_sizeBytes _ hNlt]
  have hfull := handleMessagePackets_full_fragments hasher M r.receivedMessages h
    ((M.length + 1023) / 1024 - 1) (le_refl _)
  simp only [SnWARQReceiver.handleMessagePackets] at hfull
  nth_rewrite 2 [hN1]
  rw [List.range_succ, List.map_append, List.foldl_append, hfull]
  simp only [List.map_cons, List.map_nil, List.foldl_cons, List.foldl_nil]
  rw [fragmentPacket_of_lt hasher _ _ _ h (by omega)]
  rw [handleMessagePacket_fragment _ _ (by simp [ARQMessagePacket.new])
    (by simp [ARQMessagePacket.new])]
  have hcnt : (M.length + 1023) / 1024 - ((M.length + 1023) / 1024 - 1) = 1 := by omega
  simp only [ARQMessagePacket.new, if_true, hcnt]
  have hlen : M.length % 1024 ≤
      (List.drop (((M.length + 1023) / 1024 - 1) * 1024) (M ++ [0])).length := by
    simp only [List.length_drop, List.length_append, List.length_singleton]; omega
  rw [take_messageArea _ _ (by simp only [PACKET_MESSAGE_SIZE]; omega) hlen]
  have e2 : List.take (((M.length + 1023) / 1024 - 1) * 1024) M ++
      List.take (M.length % 1024)
        (List.drop (((M.length + 1023) / 1024 - 1) * 1024) (M ++ [0])) =
      List.take (((M.length + 1023) / 1024 - 1) * 1024 + M.length % 1024) M := by
    rw [List.drop_append_of_le_length (by omega), List.take_append_of_le_length
      (by simp only [List.length_drop]; omega), List.take_add]
  have e1 : (1 + SIZE_T_RANGE - 1) % SIZE_T_RANGE = 0 := by decide
  rw [e2, e1]
  have e3 : (M.length + 1023) / 1024 - 1 + 2 = (M.length + 1023) / 1024 + 1 := by omega
  rw [e3]

theorem cString_cons_ne_sentinel (b : Nat) (rest : List Nat) (hb : b ≠ 36) :
    cString (b :: rest) ≠ END_COMMUNICATION_MESSAGE := by
  by_cases h0 : b = 0
  · simp [cString, h0, END_COMMUNICATION_MESSAGE]
  · simp [cString, h0, END_COMMUNICATION_MESSAGE, List.takeWhile_cons, hb]

/-- C1, evaluated where it fails: a message of 1024 bytes `X` is not the sentinel, yet after
its packets are handled in order by a fresh receiver the one message on the output queue is
the empty message, and `receiveMessage` returns it; the empty message leaves the output
queue empty, so `receiveMessage` blocks. -/
theorem sendMessage_roundtrip_fragment_multiple (hasher : List Nat → Nat) :
    List.replicate 1024 88 ≠ END_COMMUNICATION_MESSAGE ∧
    (SnWARQReceiver.init.handleMessagePackets
        (SnWARQSender.sendMessageString hasher { packetsBuffer := [] }
          (List.replicate 1024 88)).packetsBuffer).receivedMessages = [[]] ∧
    ((SnWARQReceiver.init.handleMessagePackets
        (SnWARQSender.sendMessageString hasher { packetsBuffer := [] }
          (List.replicate 1024 88)).packetsBuffer).receiveMessage).map Prod.fst = some [] ∧
    (SnWARQReceiver.init.handleMessagePackets
        (SnWARQSender.sendMessageString hasher { packetsBuffer := [] }
          []).packetsBuffer).receiveMessage = none := by
  have hX : cString (List.replicate 1024 88 ++ [0]) ≠ END_COMMUNICATION_MESSAGE := by
    rw [show (1024 : Nat) = 1023 + 1 from rfl, List.replicate_succ, List.cons_append]
    exact cString_cons_ne_sentinel 88 _ (by decide)
  have hlen : (List.replicate 1024 88 : List Nat).length = 1024 := List.length_replicate _ _
  have hdeliver := handleMessagePackets_message hasher (List.replicate 1024 88)
    SnWARQReceiver.init (by rw [hlen]; decide) (by rw [hlen]; decide)
  rw [hlen] at hdeliver
  have hE : cString (([] : List Nat) ++ [0]) ≠ END_COMMUNICATION_MESSAGE := by
    simp [cString, END_COMMUNICATION_MESSAGE]
  have h0 : packetCount 0 = 0 := by decide
  refine ⟨?_, ?_, ?_, ?_⟩
  · intro h
    have := congrArg List.length h
    rw [hlen] at this
    simp [END_COMMUNICATION_MESSAGE] at this
  · rw [sendMessageString_packetsBuffer hasher _ _ hX, hlen, List.nil_append, hdeliver]
    simp [SnWARQReceiver.init]
  · rw [sendMessageString_packetsBuffer hasher _ _ hX, hlen, List.nil_append, hdeliver]
    simp [SnWARQReceiver.init, SnWARQReceiver.receiveMessage]
  · rw [sendMessageString_packetsBuffer hasher _ _ hE]
    simp only [List.length_nil, h0, List.range_zero, List.map_nil, List.nil_append,
      SnWARQReceiver.handleMessagePackets, List.foldl_cons, List.foldl_nil]
    rw [handleMessagePacket_header _ _ (by simp [ARQMessagePacket.new])]
    simp [SnWARQReceiver.init, SnWARQReceiver.receiveMessage]

theorem hashString_lt (hasher : List Nat → Nat) (input : List Nat) :
    hashString hasher input < SIZE_T_RANGE :=
  Nat.mod_lt _ (by decide)

/-- Decoding the bytes of a packet gives the packet back when its fields fit their width. -/
theorem ofBytes_bytes (p : ARQMessagePacket) (hd : p.packetDigest < SIZE_T_RANGE)
    (hn : p.packetNumber < SIZE_T_RANGE) (hs : p.packetMessageSize < SIZE_T_RANGE)
    (hm : p.packetMessage.length ≤ PACKET_MESSAGE_SIZE) :
    ARQMessagePacket.ofBytes p.bytes = p := by
  cases p with
  | mk d n s m =>
    simp only at hd hn hs hm
    simp only [ARQMessagePacket.ofBytes, ARQMessagePacket.bytes, ARQMessagePacket.hashedBytes,
      List.append_assoc, ARQMessagePacket.mk.injEq]
    refine ⟨readSize_sizeBytes_append d hd _, ?_, ?_, ?_⟩
    · rw [List.drop_append_of_le_length (by rw [length_sizeBytes]),
        List.drop_of_length_le (by rw [length_sizeBytes]), List.nil_append,
        readSize_sizeBytes_append n hn]
    · rw [← List.append_assoc, List.drop_append_of_le_length
        (by simp [length_sizeBytes]), List.drop_of_length_le (by simp [length_sizeBytes]),
        List.nil_append, readSize_sizeBytes_append s hs]
    · rw [← List.append_assoc, ← List.append_assoc, List.drop_append_of_le_length
        (by simp [length_sizeBytes]), List.drop_of_length_le (by simp [length_sizeBytes]),
        List.nil_append, List.take_of_length_le hm]

theorem ofBytes_bytes_new (hasher : List Nat → Nat) (number : Nat) (message : List Nat)
    (size : Nat) (hn : number < SIZE_T_RANGE) (hs : size < SIZE_T_RANGE) :
    ARQMessagePacket.ofBytes (ARQMessagePacket.new hasher number message size).bytes =
      ARQMessagePacket.new hasher number message size :=
  ofBytes_bytes _ (hashString_lt _ _) hn hs (length_messageArea_le _ _)

theorem isValid_new (hasher : List Nat → Nat) (number : Nat) (message : List Nat) (size : Nat) :
    (ARQMessagePacket.new hasher number message size).isValid hasher = true := by
  simp [ARQMessagePacket.isValid, ARQMessagePacket.new, validateStringHash, hashString,
    ARQMessagePacket.hashedBytes]

/-- The receive loop on the unaltered bytes of packets that validate and do not end it
handles each of them. -/
theorem receiveAll_map_bytes (hasher : List Nat → Nat) (packets : List ARQMessagePacket)
    (hp : ∀ p ∈ packets, ARQMessagePacket.ofBytes p.bytes = p ∧ p.isValid hasher = true ∧
      p.packetNumber ≠ 0) (r : SnWARQReceiver) (rest : List (List Nat)) :
    SnWARQReceiver.receiveAll hasher r (packets.map ARQMessagePacket.bytes ++ rest) =
      SnWARQReceiver.receiveAll hasher (r.handleMessagePackets packets) rest := by
  induction packets generalizing r with
  | nil => simp [SnWARQReceiver.handleMessagePackets]
  | cons p ps ih =>
    obtain ⟨h1, h2, h3⟩ := hp p (List.mem_cons_self _ _)
    have ih' := ih (fun q hq => hp q (List.mem_cons_of_mem _ hq)) (r.handleMessagePacket p)
    simp only [List.map_cons, List.cons_append, SnWARQReceiver.receiveAll,
      SnWARQReceiver.receivingRoutine, h1, h2, if_true, bne_iff_ne, ne_eq, h3,
      not_false_eq_true]
    simpa [SnWARQReceiver.handleMessagePackets] using ih'

theorem sendMessageString_eq_messagePackets (hasher : List Nat → Nat) (s : SnWARQSender)
    (M : List Nat) (hs : cString (M ++ [0]) ≠ END_COMMUNICATION_MESSAGE) :
    (s.sendMessageString hasher M).packetsBuffer = s.packetsBuffer ++ messagePackets hasher M :=
  sendMessageString_packetsBuffer hasher s M hs

theorem sendMessages_packetsBuffer (hasher : List Nat → Nat) (messages : List (List Nat))
    (hs : ∀ m ∈ messages, cString (m ++ [0]) ≠ END_COMMUNICATION_MESSAGE) (s : SnWARQSender) :
    (s.sendMessages hasher messages).packetsBuffer =
      s.packetsBuffer ++ (messages.map (messagePackets hasher)).flatten := by
  induction messages generalizing s with
  | nil => simp [SnWARQSender.sendMessages]
  | cons m ms ih =>
    have ih' := ih (fun q hq => hs q (List.mem_cons_of_mem _ hq)) (s.sendMessageString hasher m)
    simp only [SnWARQSender.sendMessages, List.foldl_cons] at ih' ⊢
    rw [ih', sendMessageString_eq_messagePackets hasher s m (hs m (List.mem_cons_self _ _))]
    simp

theorem sendMessageString_sentinel (hasher : List Nat → Nat) (s : SnWARQSender) :
    (s.sendMessageString hasher END_COMMUNICATION_MESSAGE).packetsBuffer =
      s.packetsBuffer ++ [ARQMessagePacket.new hasher 0 (END_COMMUNICATION_MESSAGE ++ [0]) 0] := by
  have h : cString (END_COMMUNICATION_MESSAGE ++ [0]) = END_COMMUNICATION_MESSAGE := by decide
  simp [SnWARQSender.sendMessageString, SnWARQSender.sendMessage, h]

/-- Every packet of a message shorter than `2 ^ 63` bytes decodes to itself, validates and
has a sequence number other than 0. -/
theorem messagePackets_wellFormed (hasher : List Nat → Nat) (M : List Nat)
    (h : M.length < 2 ^ 63) :
    ∀ p ∈ messagePackets hasher M, ARQMessagePacket.ofBytes p.bytes = p ∧
      p.isValid hasher = true ∧ p.packetNumber ≠ 0 := by
  intro p hp
  simp only [messagePackets, List.mem_cons, List.mem_map, List.mem_range] at hp
  rcases hp with rfl | ⟨i, hi, rfl⟩
  · exact ⟨ofBytes_bytes_new hasher _ _ _ (by decide) (by decide), isValid_new _ _ _ _,
      by simp [ARQMessagePacket.new]⟩
  · rw [packetCount_of_lt _ h] at hi
    rw [fragmentPacket_of_lt hasher _ _ i h hi]
    refine ⟨ofBytes_bytes_new hasher _ _ _ ?_ ?_, isValid_new _ _ _ _,
      by simp [ARQMessagePacket.new]⟩
    · simp only [SIZE_T_RANGE]; omega
    · simp only [SIZE_T_RANGE]; split <;> omega

/-- The receive loop on the unaltered packets of messages whose lengths are not multiples of
the fragment size completes each message, in order. -/
theorem receiveAll_messages (hasher : List Nat → Nat) (messages : List (List Nat))
    (hlen : ∀ m ∈ messages, m.length < 2 ^ 63 ∧ m.length % PACKET_MESSAGE_SIZE ≠ 0)
    (r : SnWARQReceiver) (rest : List (List Nat)) :
    ∃ r' : SnWARQReceiver, r'.receivedMessages = r.receivedMessages ++ messages ∧
      SnWARQReceiver.receiveAll hasher r
          (((messages.map (messagePackets hasher)).flatten).map ARQMessagePacket.bytes ++ rest) =
        SnWARQReceiver.receiveAll hasher r' rest := by
  induction messages generalizing r with
  | nil => exact ⟨r, by simp, by simp⟩
  | cons m ms ih =>
    obtain ⟨hm1, hm2⟩ := hlen m (List.mem_cons_self _ _)
    simp only [PACKET_MESSAGE_SIZE] at hm2
    have hpos : 0 < m.length := by omega
    have hdel := handleMessagePackets_message hasher m r hm1 hpos
    have hfull : ((m.length + 1023) / 1024 - 1) * 1024 + m.length % 1024 = m.length := by omega
    rw [hfull, List.take_length] at hdel
    obtain ⟨r', hr1, hr2⟩ := ih (fun q hq => hlen q (List.mem_cons_of_mem _ hq))
      (r.handleMessagePackets (messagePackets hasher m))
    refine ⟨r', ?_, ?_⟩
    · rw [hr1]
      simp only [messagePackets]
      rw [hdel]
      simp
    · simp only [List.map_cons, List.flatten_cons, List.map_append, List.append_assoc]
      rw [receiveAll_map_bytes hasher _ (messagePackets_wellFormed hasher m hm1), hr2]

theorem receiveMessages_all (l : List (List Nat)) (r : SnWARQReceiver)
    (h : r.receivedMessages = l) :
    r.receiveMessages l.length = some (l, { r with receivedMessages := [] }) := by
  induction l generalizing r with
  | nil =>
    cases r
    simp only at h
    simp [SnWARQReceiver.receiveMessages, h]
  | cons m ms ih =>
    have ih' := ih { r with receivedMessages := ms } rfl
    simp only [List.length_cons, SnWARQReceiver.receiveMessages, SnWARQReceiver.receiveMessage, h]
    rw [ih']

/-- C2: messages whose lengths are not multiples of the fragment size and which
`sendMessage` does not take for the sentinel (a `std::string` holds fewer than `2 ^ 63`
bytes), sent in order and followed by the sentinel, then delivered front to back as unaltered
buffers to the receive loop of a fresh receiver, are returned by successive `receiveMessage`
calls in the same order, followed by the sentinel; after that the output queue is empty. -/
theorem messages_received_in_order (hasher : List Nat → Nat) (messages : List (List Nat))
    (hlen : ∀ m ∈ messages, m.length < 2 ^ 63 ∧ m.length % PACKET_MESSAGE_SIZE ≠ 0)
    (hs : ∀ m ∈ messages, cString (m ++ [0]) ≠ END_COMMUNICATION_MESSAGE) :
    (SnWARQReceiver.init.receiveAll hasher
        ((SnWARQSender.sendMessages hasher { packetsBuffer := [] }
          (messages ++ [END_COMMUNICATION_MESSAGE])).packetsBuffer.map
            ARQMessagePacket.bytes)).receivedMessages =
      messages ++ [END_COMMUNICATION_MESSAGE] ∧
    ∃ r : SnWARQReceiver,
      (SnWARQReceiver.init.receiveAll hasher
        ((SnWARQSender.sendMessages hasher { packetsBuffer := [] }
          (messages ++ [END_COMMUNICATION_MESSAGE])).packetsBuffer.map
            ARQMessagePacket.bytes)).receiveMessages (messages.length + 1) =
        some (messages ++ [END_COMMUNICATION_MESSAGE], r) ∧
      r.receiveMessage = none := by
  have hq : (SnWARQSender.sendMessages hasher { packetsBuffer := [] }
      (messages ++ [END_COMMUNICATION_MESSAGE])).packetsBuffer =
      (messages.map (messagePackets hasher)).flatten ++
        [ARQMessagePacket.new hasher 0 (END_COMMUNICATION_MESSAGE ++ [0]) 0] := by
    have h1 := sendMessages_packetsBuffer hasher messages hs { packetsBuffer := [] }
    simp only [SnWARQSender.sendMessages, List.foldl_append, List.foldl_cons, List.foldl_nil,
      List.nil_append] at h1 ⊢
    rw [sendMessageString_sentinel, h1]
  obtain ⟨r', hr1, hr2⟩ := receiveAll_messages hasher messages hlen SnWARQReceiver.init
    [(ARQMessagePacket.new hasher 0 (END_COMMUNICATION_MESSAGE ++ [0]) 0).bytes]
  have hfin : SnWARQReceiver.receiveAll hasher r'
      [(ARQMessagePacket.new hasher 0 (END_COMMUNICATION_MESSAGE ++ [0]) 0).bytes] =
      { r' with receivedMessages := r'.receivedMessages ++ [END_COMMUNICATION_MESSAGE] } := by
    simp only [SnWARQReceiver.receiveAll, SnWARQReceiver.receivingRoutine,
      ofBytes_bytes_new hasher 0 _ 0 (by decide) (by decide), isValid_new, if_true]
    simp [ARQMessagePacket.new, SnWARQReceiver.handleMessagePacket]
  have hrecv : (SnWARQReceiver.init.receiveAll hasher
        ((SnWARQSender.sendMessages hasher { packetsBuffer := [] }
          (messages ++ [END_COMMUNICATION_MESSAGE])).packetsBuffer.map
            ARQMessagePacket.bytes)).receivedMessages =
      messages ++ [END_COMMUNICATION_MESSAGE] := by
    rw [hq, List.map_append, List.map_cons, List.map_nil, hr2, hfin, hr1]
    simp [SnWARQReceiver.init]
  generalize SnWARQReceiver.init.receiveAll hasher
        ((SnWARQSender.sendMessages hasher { packetsBuffer := [] }
          (messages ++ [END_COMMUNICATION_MESSAGE])).packetsBuffer.map
            ARQMessagePacket.bytes) = rcv at hrecv ⊢
  refine ⟨hrecv, { rcv with receivedMessages := [] }, ?_, ?_⟩
  · have := receiveMessages_all _ rcv hrecv
    simpa using this
  · simp [SnWARQReceiver.receiveMessage]

/-- C2 at the two 33-byte messages of the driver, `X` 32 times followed by `0` and by `1`. -/
theorem messages_received_in_order_driver :
    (SnWARQReceiver.init.receiveAll (fun _ => 0)
        ((SnWARQSender.sendMessages (fun _ => 0) { packetsBuffer := [] }
          ([List.replicate 32 88 ++ [48], List.replicate 32 88 ++ [49]] ++
            [END_COMMUNICATION_MESSAGE])).packetsBuffer.map
            ARQMessagePacket.bytes)).receivedMessages =
      [List.replicate 32 88 ++ [48], List.replicate 32 88 ++ [49]] ++
        [END_COMMUNICATION_MESSAGE] :=
  (messages_received_in_order (fun _ => 0)
    [List.replicate 32 88 ++ [48], List.replicate 32 88 ++ [49]]
    (by decide) (by decide)).1

theorem length_messageArea (message : List Nat) (size : Nat)
    (h : min PACKET_MESSAGE_SIZE size ≤ message.length) :
    (messageArea message size).length = PACKET_MESSAGE_SIZE := by
  simp only [messageArea, List.length_append, List.length_take, List.length_replicate]
  omega

theorem drop_messageArea (message : List Nat) (size : Nat) (h : size ≤ PACKET_MESSAGE_SIZE)
    (hm : size ≤ message.length) :
    (messageArea message size).drop size = List.replicate (PACKET_MESSAGE_SIZE - size) 0 := by
  simp only [messageArea, Nat.min_eq_right h]
  rw [List.drop_append_of_le_length (by simp [hm]), List.drop_of_length_le (by simp),
    List.nil_append]

/-- C4: for a sequence number `n` (a `std::size_t`), a length `len ≤ 1024` and a source
buffer `b` of at least `len` bytes, the packet `ARQMessagePacket(n, b, len)` occupies 1048
bytes, digest, number, length and payload in this order without padding; the digest is the
hash of bytes 8..1047; the first `len` payload bytes are those of `b` and the others are
zero; decoding a copy of the bytes gives number `n`, length `len`, the same payload, and a
packet that validates. -/
theorem new_packet_layout_and_decoding (hasher : List Nat → Nat) (n len : Nat) (b : List Nat)
    (hn : n < SIZE_T_RANGE) (hlen : len ≤ PACKET_MESSAGE_SIZE) (hb : len ≤ b.length) :
    (ARQMessagePacket.new hasher n b len).bytes.length = 1048 ∧
    (ARQMessagePacket.new hasher n b len).bytes =
      sizeBytes (ARQMessagePacket.new hasher n b len).packetDigest ++ sizeBytes n ++
        sizeBytes len ++ (ARQMessagePacket.new hasher n b len).packetMessage ∧
    (ARQMessagePacket.new hasher n b len).packetMessage.length = 1024 ∧
    (ARQMessagePacket.new hasher n b len).packetDigest =
      hashString hasher ((ARQMessagePacket.new hasher n b len).bytes.drop 8) ∧
    (ARQMessagePacket.new hasher n b len).packetMessage.take len = b.take len ∧
    (ARQMessagePacket.new hasher n b len).packetMessage.drop len =
      List.replicate (1024 - len) 0 ∧
    (ARQMessagePacket.ofBytes (ARQMessagePacket.new hasher n b len).bytes).packetNumber = n ∧
    (ARQMessagePacket.ofBytes (ARQMessagePacket.new hasher n b len).bytes).packetMessageSize =
      len ∧
    (ARQMessagePacket.ofBytes (ARQMessagePacket.new hasher n b len).bytes).packetMessage =
      (ARQMessagePacket.new hasher n b len).packetMessage ∧
    (ARQMessagePacket.ofBytes (ARQMessagePacket.new hasher n b len).bytes).isValid hasher =
      true := by
  have hs : len < SIZE_T_RANGE := by
    simp only [PACKET_MESSAGE_SIZE] at hlen; simp only [SIZE_T_RANGE]; omega
  have harea : (messageArea b len).length = 1024 :=
    length_messageArea b len (by rw [Nat.min_eq_right hlen]; exact hb)
  rw [ofBytes_bytes_new hasher n b len hn hs]
  refine ⟨?_, ?_, harea, ?_, take_messageArea b len hlen hb, drop_messageArea b len hlen hb,
    rfl, rfl, rfl, isValid_new _ _ _ _⟩
  · simp [ARQMessagePacket.bytes, ARQMessagePacket.hashedBytes, ARQMessagePacket.new,
      length_sizeBytes, harea]
  · simp [ARQMessagePacket.bytes, ARQMessagePacket.hashedBytes, ARQMessagePacket.new]
  · simp only [ARQMessagePacket.bytes, ARQMessagePacket.hashedBytes, ARQMessagePacket.new]
    rw [List.drop_append_of_le_length (by rw [length_sizeBytes]),
      List.drop_of_length_le (by rw [length_sizeBytes]), List.nil_append]

/-- C4 at sequence number 2 and the four bytes `ABCD`. -/
theorem new_packet_layout_and_decoding_ABCD :
    (ARQMessagePacket.new (fun _ => 0) 2 [65, 66, 67, 68] 4).bytes.length = 1048 ∧
    (ARQMessagePacket.ofBytes
        (ARQMessagePacket.new (fun _ => 0) 2 [65, 66, 67, 68] 4).bytes).isValid
      (fun _ => 0) = true :=
  ⟨(new_packet_layout_and_decoding (fun _ => 0) 2 4 [65, 66, 67, 68] (by decide) (by decide)
      (by decide)).1,
    (new_packet_layout_and_decoding (fun _ => 0) 2 4 [65, 66, 67, 68] (by decide) (by decide)
      (by decide)).2.2.2.2.2.2.2.2.2⟩

/-- C5: handling a data packet a second time leaves the assembly state as the first handling
left it; when the sequence number is not 0 the output queue is unchanged too; a fragment
with a sequence number from 2 up to the last accepted number changes nothing. -/
theorem handleMessagePacket_twice (r : SnWARQReceiver) (p : ARQMessagePacket) :
    ((r.handleMessagePacket p).handleMessagePacket p).lastMessageNumber =
        (r.handleMessagePacket p).lastMessageNumber ∧
    ((r.handleMessagePacket p).handleMessagePacket p).currentMessagePackets =
        (r.handleMessagePacket p).currentMessagePackets ∧
    ((r.handleMessagePacket p).handleMessagePacket p).currentMessage =
        (r.handleMessagePacket p).currentMessage ∧
    (p.packetNumber ≠ 0 →
      (r.handleMessagePacket p).handleMessagePacket p = r.handleMessagePacket p) ∧
    (2 ≤ p.packetNumber → p.packetNumber ≤ r.lastMessageNumber →
      r.handleMessagePacket p = r) := by
  by_cases h0 : p.packetNumber = 0
  · simp [SnWARQReceiver.handleMessagePacket, h0]
  by_cases h1 : p.packetNumber = 1
  · simp [SnWARQReceiver.handleMessagePacket, h1]
  by_cases h2 : p.packetNumber ≤ r.lastMessageNumber
  · have : 2 ≤ p.packetNumber := by omega
    simp [SnWARQReceiver.handleMessagePacket, h0, h1, h2]
  · simp [SnWARQReceiver.handleMessagePacket, h0, h1, h2]

/-- Decoding the bytes of an acknowledgment built by the constructor gives it back. -/
theorem ackOfBytes_bytes_new (hasher : List Nat → Nat) (flag : Bool) (number : Nat)
    (hn : number < SIZE_T_RANGE) :
    ARQACKPacket.ofBytes (ARQACKPacket.new hasher flag number).bytes =
      ARQACKPacket.new hasher flag number := by
  simp only [ARQACKPacket.ofBytes, ARQACKPacket.bytes, ARQACKPacket.hashedBytes,
    ARQACKPacket.new, List.cons_append, List.headD_cons, List.drop_succ_cons,
    ARQACKPacket.mk.injEq, true_and]
  refine ⟨?_, ?_⟩
  · rw [List.drop_zero, readSize_sizeBytes_append number hn]
  · rw [List.drop_append_of_le_length (by rw [length_sizeBytes]),
      List.drop_of_length_le (by rw [length_sizeBytes]), List.nil_append,
      readSize_sizeBytes (hashString hasher _) (hashString_lt _ _)]

/-- An acknowledgment built by the constructor is valid for `n` exactly when it is positive
and carries the number `n`. -/
theorem ackIsValid_new (hasher : List Nat → Nat) (flag : Bool) (number n : Nat) :
    (ARQACKPacket.new hasher flag number).isValid hasher n = (flag && (number == n)) := by
  cases flag <;>
    simp [ARQACKPacket.isValid, ARQACKPacket.new, ARQACKPacket.getAcknowledged,
      validateStringHash, hashString, ARQACKPacket.hashedBytes]

/-- C6: with a non-empty outstanding queue whose front packet has sequence number `k ≥ 1`,
one iteration of the ack listener on the acknowledgment `ARQACKPacket(flag, s)` removes
the front packet, and only it, when `flag` is true and `s = k`, and leaves the queue unchanged
otherwise; a positive acknowledgment for sequence 0 ends the listener and leaves the queue
as it is. -/
theorem receivingRoutine_on_acknowledgment (hasher : List Nat → Nat) (front : ARQMessagePacket)
    (rest : List ARQMessagePacket) (flag : Bool) (s : Nat)
    (hk : 1 ≤ front.packetNumber) (hs : s < SIZE_T_RANGE) :
    (flag = true ∧ s = front.packetNumber →
      SnWARQSender.receivingRoutine hasher { packetsBuffer := front :: rest }
        (ARQACKPacket.new hasher flag s).bytes = some ({ packetsBuffer := rest }, true)) ∧
    (¬ (flag = true ∧ s = front.packetNumber) →
      SnWARQSender.receivingRoutine hasher { packetsBuffer := front :: rest }
        (ARQACKPacket.new hasher flag s).bytes =
          some ({ packetsBuffer := front :: rest }, !(flag && (s == 0)))) ∧
    (flag = true ∧ s = 0 →
      SnWARQSender.receivingRoutine hasher { packetsBuffer := front :: rest }
        (ARQACKPacket.new hasher flag s).bytes =
          some ({ packetsBuffer := front :: rest }, false)) := by
  simp only [SnWARQSender.receivingRoutine, ackOfBytes_bytes_new hasher flag s hs,
    ackIsValid_new]
  have hne : front.packetNumber ≠ 0 := by omega
  refine ⟨?_, ?_, ?_⟩
  · rintro ⟨rfl, rfl⟩
    simp [hne]
  · intro h
    cases flag
    · simp
    · have hsk : s ≠ front.packetNumber := fun e => h ⟨rfl, e⟩
      by_cases h0 : s = 0
      · simp [h0]
      · simp [h0, hsk]
  · rintro ⟨rfl, rfl⟩
    simp

/-- C6 at a queue of two packets with sequence numbers 2 and 3 and a positive
acknowledgment for 2: the front packet is removed, the other one stays. -/
theorem receivingRoutine_on_acknowledgment_two :
    SnWARQSender.receivingRoutine (fun _ => 0)
        { packetsBuffer := [ARQMessagePacket.new (fun _ => 0) 2 [65] 1,
            ARQMessagePacket.new (fun _ => 0) 3 [66] 1] }
        (ARQACKPacket.new (fun _ => 0) true 2).bytes =
      some ({ packetsBuffer := [ARQMessagePacket.new (fun _ => 0) 3 [66] 1] }, true) :=
  (receivingRoutine_on_acknowledgment (fun _ => 0) (ARQMessagePacket.new (fun _ => 0) 2 [65] 1)
    [ARQMessagePacket.new (fun _ => 0) 3 [66] 1] true 2 (by decide) (by decide)).1 ⟨rfl, rfl⟩

/-- C7, evaluated where it fails: the 21 bytes `$END_COMMUNICATION$`, a zero byte and `X`
are not the sentinel, yet `sendMessage(std::string)` appends for them the single packet with
sequence number 0 and length 0, and no header. -/
theorem sendMessage_sentinel_prefix_with_zero_byte (hasher : List Nat → Nat)
    (s : SnWARQSender) :
    END_COMMUNICATION_MESSAGE ++ [0, 88] ≠ END_COMMUNICATION_MESSAGE ∧
    (s.sendMessageString hasher (END_COMMUNICATION_MESSAGE ++ [0, 88])).packetsBuffer =
      s.packetsBuffer ++
        [ARQMessagePacket.new hasher 0 (END_COMMUNICATION_MESSAGE ++ [0, 88, 0]) 0] ∧
    (ARQMessagePacket.new hasher 0 (END_COMMUNICATION_MESSAGE ++ [0, 88, 0])
      0).packetNumber = 0 ∧
    (ARQMessagePacket.new hasher 0 (END_COMMUNICATION_MESSAGE ++ [0, 88, 0])
      0).packetMessageSize = 0 := by
  have h : cString (END_COMMUNICATION_MESSAGE ++ [0, 88, 0]) = END_COMMUNICATION_MESSAGE := by
    decide
  refine ⟨by decide, ?_, rfl, rfl⟩
  simp [SnWARQSender.sendMessageString, SnWARQSender.sendMessage, h]

/-- C9, evaluated where it fails: with an empty outstanding queue, one iteration of the ack
listener on a positive acknowledgment for sequence 2 (a second acknowledgment of a packet
already removed) reads the sequence number of the front packet of the empty queue. -/
theorem receivingRoutine_empty_queue_reads_front (hasher : List Nat → Nat) :
    SnWARQSender.receivingRoutine hasher { packetsBuffer := [] }
      (ARQACKPacket.new hasher true 2).bytes = none := by
  simp [SnWARQSender.receivingRoutine, ackOfBytes_bytes_new hasher true 2 (by decide),
    ackIsValid_new]

theorem sendToB_bytesB (c : NoisyChannel) (message : List Nat) (size r₁ r₂ : Nat) :
    (c.sendToB message size r₁ r₂).bytesB = (validBytesAfter c.avgValidBytes c.bytesB size).1 :=
  rfl

theorem sendToA_bytesA (c : NoisyChannel) (message : List Nat) (size r₁ r₂ : Nat) :
    (c.sendToA message size r₁ r₂).bytesA = (validBytesAfter c.avgValidBytes c.bytesA size).1 :=
  rfl

/-- The counter of the forward direction after a sequence of `sendToB` calls is the fold of
the counter statement over the sizes sent. -/
theorem foldl_sendToB_bytesB (sends : List (List Nat × Nat × Nat × Nat)) (c : NoisyChannel) :
    (sends.foldl (fun c x => c.sendToB x.1 x.2.1 x.2.2.1 x.2.2.2) c).bytesB =
      validBytesAfterSends c.avgValidBytes c.bytesB (sends.map fun x => x.2.1) ∧
    (sends.foldl (fun c x => c.sendToB x.1 x.2.1 x.2.2.1 x.2.2.2) c).avgValidBytes =
      c.avgValidBytes := by
  induction sends generalizing c with
  | nil => exact ⟨rfl, rfl⟩
  | cons x xs ih =>
    obtain ⟨h1, h2⟩ := ih (c.sendToB x.1 x.2.1 x.2.2.1 x.2.2.2)
    simp only [List.foldl_cons, List.map_cons, validBytesAfterSends] at h1 h2 ⊢
    exact ⟨h1, h2⟩

set_option maxRecDepth 100000 in
/-- C10, evaluated where it fails: with the default threshold 1024 and data packets of 1048
bytes the counter of the direction is 16 after 42 sends and `2 ^ 64 - 8` after the 43rd,
which is the wrapped value of `1024 - (1048 - 16)` and lies outside `1..1024`; this is the
counter of the default channel after 43 calls of `sendToB` with a data packet. -/
theorem validBytes_wraps_with_defaults :
    CHANNEL_DEFAULT_AVG_VALID_BYTES = 1024 ∧ ARQMessagePacket.sizeof = 1048 ∧
    validBytesAfterSends CHANNEL_DEFAULT_AVG_VALID_BYTES CHANNEL_DEFAULT_AVG_VALID_BYTES
      (List.replicate 42 ARQMessagePacket.sizeof) = 16 ∧
    validBytesAfterSends CHANNEL_DEFAULT_AVG_VALID_BYTES CHANNEL_DEFAULT_AVG_VALID_BYTES
      (List.replicate 43 ARQMessagePacket.sizeof) = 2 ^ 64 - 8 ∧
    ¬ (validBytesAfterSends CHANNEL_DEFAULT_AVG_VALID_BYTES CHANNEL_DEFAULT_AVG_VALID_BYTES
      (List.replicate 43 ARQMessagePacket.sizeof) ≤ CHANNEL_DEFAULT_AVG_VALID_BYTES) ∧
    ∀ (hasher : List Nat → Nat) (r₁ r₂ : Nat),
      ((List.replicate 43
          ((ARQMessagePacket.new hasher 2 [88] 1).bytes, ARQMessagePacket.sizeof, r₁, r₂)).foldl
        (fun c x => c.sendToB x.1 x.2.1 x.2.2.1 x.2.2.2)
        (NoisyChannel.new CHANNEL_DEFAULT_AVG_VALID_BYTES)).bytesB = 2 ^ 64 - 8 := by
  refine ⟨rfl, rfl, by decide, by decide, by decide, fun hasher r₁ r₂ => ?_⟩
  rw [(foldl_sendToB_bytesB _ _).1, List.map_replicate]
  show validBytesAfterSends CHANNEL_DEFAULT_AVG_VALID_BYTES CHANNEL_DEFAULT_AVG_VALID_BYTES
    (List.replicate 43 ARQMessagePacket.sizeof) = 2 ^ 64 - 8
  decide

theorem getAcknowledged_new (hasher : List Nat → Nat) (flag : Bool) (number : Nat) :
    (ARQACKPacket.new hasher flag number).getAcknowledged = flag := by
  cases flag <;> simp [ARQACKPacket.new, ARQACKPacket.getAcknowledged]

theorem ackPacketNumber_new (hasher : List Nat → Nat) (flag : Bool) (number : Nat) :
    (ARQACKPacket.new hasher flag number).packetNumber = number :=
  rfl

/-- One event keeps the relation between the sequence-0 packets recorded on the two links and
the threads that have ended. -/
theorem step_sequenceZero (hasher : List Nat → Nat) (σ σ' : System) (event : Event)
    (h : σ.step hasher event = some σ')
    (hB : sequenceZeroPackets σ.sentToB = if σ.sendingRoutineRunning then 0 else 1)
    (hA : positiveSequenceZeroAcks σ.sentToA =
      (if σ.sendingRoutineRunning then 0 else 1) +
        (if σ.receiverReceivingRoutineRunning then 0 else 1)) :
    sequenceZeroPackets σ'.sentToB = (if σ'.sendingRoutineRunning then 0 else 1) ∧
    positiveSequenceZeroAcks σ'.sentToA =
      (if σ'.sendingRoutineRunning then 0 else 1) +
        (if σ'.receiverReceivingRoutineRunning then 0 else 1) := by
  cases event with
  | sendMessage messageString =>
    simp only [System.step, Option.some.injEq] at h
    subst h
    exact ⟨hB, hA⟩
  | receiveMessage =>
    simp only [System.step] at h
    split at h
    · exact absurd h (by simp)
    · simp only [Option.some.injEq] at h
      subst h
      exact ⟨hB, hA⟩
  | senderReceivingRoutine =>
    simp only [System.step] at h
    split at h
    · split at h
      · exact absurd h (by simp)
      · split at h
        · exact absurd h (by simp)
        · simp only [Option.some.injEq] at h
          subst h
          exact ⟨hB, hA⟩
    · exact absurd h (by simp)
  | sendingRoutine r₁ r₂ r₃ r₄ =>
    simp only [System.step] at h
    split at h
    · rename_i hrun
      simp only [hrun, if_true] at hB hA
      simp only [SnWARQSender.sendingRoutine] at h
      cases hq : σ.sender.packetsBuffer with
      | nil =>
        simp only [hq, Option.some.injEq] at h
        subst h
        simpa [hrun] using And.intro hB hA
      | cons front rest =>
        simp only [hq] at h
        by_cases h0 : front.packetNumber = 0
        · simp only [h0, if_true, Option.some.injEq] at h
          subst h
          simp only [sequenceZeroPackets, positiveSequenceZeroAcks, List.countP_append] at hB hA ⊢
          simp [hB, hA, h0, getAcknowledged_new, ackPacketNumber_new]
          omega
        · simp only [h0, if_false, Option.some.injEq] at h
          subst h
          simp only [sequenceZeroPackets, positiveSequenceZeroAcks, List.countP_append] at hB hA ⊢
          simp [hB, hA, h0]
    · exact absurd h (by simp)
  | receiverReceivingRoutine r₁ r₂ =>
    simp only [System.step] at h
    split at h
    · rename_i hrun
      simp only [hrun, if_true] at hA
      split at h
      · exact absurd h (by simp)
      · rename_i buffer channel hrecv
        simp only [Option.some.injEq] at h
        subst h
        simp only [SnWARQReceiver.receivingRoutine, sequenceZeroPackets,
          positiveSequenceZeroAcks, List.countP_append] at hB hA ⊢
        refine ⟨hB, ?_⟩
        by_cases hv : (ARQMessagePacket.ofBytes buffer).isValid hasher = true
        · by_cases h0 : (ARQMessagePacket.ofBytes buffer).packetNumber = 0
          · simp [hv, h0, hA, getAcknowledged_new, ackPacketNumber_new]
          · simp [hv, h0, hA, getAcknowledged_new, ackPacketNumber_new]
        · simp [hv, hA, getAcknowledged_new, ackPacketNumber_new]
    · exact absurd h (by simp)

theorem length_bytes_new_le (hasher : List Nat → Nat) (number : Nat) (message : List Nat)
    (size : Nat) :
    (ARQMessagePacket.new hasher number message size).bytes.length ≤ ARQMessagePacket.sizeof := by
  have := length_messageArea_le message size
  simp only [ARQMessagePacket.bytes, ARQMessagePacket.hashedBytes, ARQMessagePacket.new,
    List.length_append, length_sizeBytes, ARQMessagePacket.sizeof]
  omega

theorem length_ackBytes (a : ARQACKPacket) : a.bytes.length = ARQACKPacket.sizeof := by
  simp [ARQACKPacket.bytes, ARQACKPacket.hashedBytes, length_sizeBytes, ARQACKPacket.sizeof]

/-- One iteration of the receiver loop on the unaltered bytes of a packet built by the
constructor. -/
theorem receivingRoutine_bytes_new (hasher : List Nat → Nat) (r : SnWARQReceiver)
    (number : Nat) (message : List Nat) (size : Nat) (hn : number < SIZE_T_RANGE)
    (hs : size < SIZE_T_RANGE) :
    r.receivingRoutine hasher (ARQMessagePacket.new hasher number message size).bytes =
      (r.handleMessagePacket (ARQMessagePacket.new hasher number message size),
        ARQACKPacket.new hasher true number, number != 0) := by
  simp only [SnWARQReceiver.receivingRoutine, ofBytes_bytes_new hasher number message size hn hs,
    isValid_new, if_true]
  rfl

theorem sendMessageString_sentinel_eq (hasher : List Nat → Nat) (s : SnWARQSender) :
    s.sendMessageString hasher END_COMMUNICATION_MESSAGE =
      { packetsBuffer := s.packetsBuffer ++
          [ARQMessagePacket.new hasher 0 (END_COMMUNICATION_MESSAGE ++ [0]) 0] } := by
  have h := sendMessageString_sentinel hasher s
  cases hs : s.sendMessageString hasher END_COMMUNICATION_MESSAGE
  rw [hs] at h
  simp only at h
  rw [h]

theorem run_cons_of_step (hasher : List Nat → Nat) (σ σ' : System) (event : Event)
    (events : List Event) (h : σ.step hasher event = some σ') :
    System.run hasher σ (event :: events) = System.run hasher σ' events := by
  simp [System.run, h]

/-- A positive acknowledgment for sequence 0 ends the ack listener and leaves the queue. -/
theorem receivingRoutine_end (hasher : List Nat → Nat) (s : SnWARQSender) :
    s.receivingRoutine hasher (ARQACKPacket.new hasher true 0).bytes = some (s, false) := by
  simp [SnWARQSender.receivingRoutine, ackOfBytes_bytes_new hasher true 0 (by decide),
    ackIsValid_new]

/-- One iteration of the ack listener inside the composed system. -/
theorem step_senderReceivingRoutine (hasher : List Nat → Nat) (σ : System) (buffer : List Nat)
    (rest : List (List Nat)) (sender : SnWARQSender) (running : Bool)
    (hrun : σ.senderReceivingRoutineRunning = true)
    (hbuf : σ.channel.bufferA = buffer :: rest)
    (hstep : σ.sender.receivingRoutine hasher buffer = some (sender, running)) :
    σ.step hasher Event.senderReceivingRoutine =
      some { σ with
        channel := { σ.channel with
          bufferA := rest
          totalPacketsReceivedFromA := (σ.channel.totalPacketsReceivedFromA + 1) % SIZE_T_RANGE }
        sender := sender
        senderReceivingRoutineRunning := running } := by
  simp only [System.step, hrun, if_true, NoisyChannel.recvFromA, hbuf, hstep]

/-- The termination run on a channel that alters no bit of its first packets: all three
threads end, one sequence-0 data packet was handed to the forward link and two positive
sequence-0 acknowledgments to the reverse link. -/
theorem terminationRun_result (hasher : List Nat → Nat) :
    ∃ σ : System, System.run hasher (System.init 4096) terminationRun = some σ ∧
      σ.sentToB = [ARQMessagePacket.new hasher 0 (END_COMMUNICATION_MESSAGE ++ [0]) 0] ∧
      σ.sentToA = [ARQACKPacket.new hasher true 0, ARQACKPacket.new hasher true 0] ∧
      σ.sendingRoutineRunning = false ∧ σ.senderReceivingRoutineRunning = false ∧
      σ.receiverReceivingRoutineRunning = false ∧
      σ.receiver.receivedMessages = [END_COMMUNICATION_MESSAGE] := by
  have hB : validBytesAfter 4096 4096 ARQMessagePacket.sizeof = (3048, false) := by decide
  have hA1 : validBytesAfter 4096 4096 ARQACKPacket.sizeof = (4079, false) := by decide
  have hA2 : validBytesAfter 4096 4079 ARQACKPacket.sizeof = (4062, false) := by decide
  have h1mod : (0 + 1) % SIZE_T_RANGE = 1 := by decide
  have h2mod : (1 + 1) % SIZE_T_RANGE = 2 := by decide
  have htakeB := List.take_of_length_le
    (length_bytes_new_le hasher 0 (END_COMMUNICATION_MESSAGE ++ [0]) 0)
  have htakeA := List.take_of_length_le
    (le_of_eq (length_ackBytes (ARQACKPacket.new hasher true 0)))
  have hrecv := receivingRoutine_bytes_new hasher SnWARQReceiver.init 0
    (END_COMMUNICATION_MESSAGE ++ [0]) 0 (by decide) (by decide)
  have hhandle : SnWARQReceiver.init.handleMessagePacket
      (ARQMessagePacket.new hasher 0 (END_COMMUNICATION_MESSAGE ++ [0]) 0) =
      { SnWARQReceiver.init with receivedMessages := [END_COMMUNICATION_MESSAGE] } :=
    handleMessagePacket_zero _ _ rfl
  have e1 : (System.init 4096).step hasher (Event.sendMessage END_COMMUNICATION_MESSAGE) =
      some { System.init 4096 with
        sender := { packetsBuffer :=
          [ARQMessagePacket.new hasher 0 (END_COMMUNICATION_MESSAGE ++ [0]) 0] } } := by
    simp only [System.step, System.init, sendMessageString_sentinel_eq, List.nil_append]
  have e2 : System.step hasher { System.init 4096 with
        sender := { packetsBuffer :=
          [ARQMessagePacket.new hasher 0 (END_COMMUNICATION_MESSAGE ++ [0]) 0] } }
        (Event.sendingRoutine 0 0 0 0) =
      some { System.init 4096 with
        sender := { packetsBuffer :=
          [ARQMessagePacket.new hasher 0 (END_COMMUNICATION_MESSAGE ++ [0]) 0] }
        channel := { NoisyChannel.new 4096 with
          bytesA := 4079, bytesB := 3048, totalPacketsSentToA := 1, totalPacketsSentToB := 1
          bufferA := [(ARQACKPacket.new hasher true 0).bytes]
          bufferB := [(ARQMessagePacket.new hasher 0 (END_COMMUNICATION_MESSAGE ++ [0]) 0).bytes] }
        sentToB := [ARQMessagePacket.new hasher 0 (END_COMMUNICATION_MESSAGE ++ [0]) 0]
        sentToA := [ARQACKPacket.new hasher true 0]
        sendingRoutineRunning := false } := by
    have hp0 : (ARQMessagePacket.new hasher 0 (END_COMMUNICATION_MESSAGE ++ [0]) 0).packetNumber
        = 0 := rfl
    simp only [System.step, System.init, SnWARQSender.sendingRoutine, hp0, if_true,
      NoisyChannel.new, NoisyChannel.sendToB, NoisyChannel.sendToA, hB, hA1, htakeB, htakeA,
      List.nil_append, h1mod]
    simp
  have e3 : System.step hasher { System.init 4096 with
        sender := { packetsBuffer :=
          [ARQMessagePacket.new hasher 0 (END_COMMUNICATION_MESSAGE ++ [0]) 0] }
        channel := { NoisyChannel.new 4096 with
          bytesA := 4079, bytesB := 3048, totalPacketsSentToA := 1, totalPacketsSentToB := 1
          bufferA := [(ARQACKPacket.new hasher true 0).bytes]
          bufferB := [(ARQMessagePacket.new hasher 0 (END_COMMUNICATION_MESSAGE ++ [0]) 0).bytes] }
        sentToB := [ARQMessagePacket.new hasher 0 (END_COMMUNICATION_MESSAGE ++ [0]) 0]
        sentToA := [ARQACKPacket.new hasher true 0]
        sendingRoutineRunning := false }
        (Event.receiverReceivingRoutine 0 0) =
      some { System.init 4096 with
        sender := { packetsBuffer :=
          [ARQMessagePacket.new hasher 0 (END_COMMUNICATION_MESSAGE ++ [0]) 0] }
        channel := { NoisyChannel.new 4096 with
          bytesA := 4062, bytesB := 3048, totalPacketsSentToA := 2, totalPacketsSentToB := 1
          totalPacketsReceivedFromB := 1
          bufferA := [(ARQACKPacket.new hasher true 0).bytes, (ARQACKPacket.new hasher true 0).bytes]
          bufferB := [] }
        receiver := { SnWARQReceiver.init with receivedMessages := [END_COMMUNICATION_MESSAGE] }
        sentToB := [ARQMessagePacket.new hasher 0 (END_COMMUNICATION_MESSAGE ++ [0]) 0]
        sentToA := [ARQACKPacket.new hasher true 0, ARQACKPacket.new hasher true 0]
        sendingRoutineRunning := false
        receiverReceivingRoutineRunning := false } := by
    simp only [System.step, System.init, NoisyChannel.new, NoisyChannel.recvFromB,
      NoisyChannel.sendToA, hrecv, hhandle, hA2, htakeA, h1mod, h2mod, if_true]
    simp
  have e4 : System.step hasher { System.init 4096 with
        sender := { packetsBuffer :=
          [ARQMessagePacket.new hasher 0 (END_COMMUNICATION_MESSAGE ++ [0]) 0] }
        channel := { NoisyChannel.new 4096 with
          bytesA := 4062, bytesB := 3048, totalPacketsSentToA := 2, totalPacketsSentToB := 1
          totalPacketsReceivedFromB := 1
          bufferA := [(ARQACKPacket.new hasher true 0).bytes, (ARQACKPacket.new hasher true 0).bytes]
          bufferB := [] }
        receiver := { SnWARQReceiver.init with receivedMessages := [END_COMMUNICATION_MESSAGE] }
        sentToB := [ARQMessagePacket.new hasher 0 (END_COMMUNICATION_MESSAGE ++ [0]) 0]
        sentToA := [ARQACKPacket.new hasher true 0, ARQACKPacket.new hasher true 0]
        sendingRoutineRunning := false
        receiverReceivingRoutineRunning := false }
        Event.senderReceivingRoutine =
      some { System.init 4096 with
        sender := { packetsBuffer :=
          [ARQMessagePacket.new hasher 0 (END_COMMUNICATION_MESSAGE ++ [0]) 0] }
        channel := { NoisyChannel.new 4096 with
          bytesA := 4062, bytesB := 3048, totalPacketsSentToA := 2, totalPacketsSentToB := 1
          totalPacketsReceivedFromB := 1, totalPacketsReceivedFromA := 1
          bufferA := [(ARQACKPacket.new hasher true 0).bytes]
          bufferB := [] }
        receiver := { SnWARQReceiver.init with receivedMessages := [END_COMMUNICATION_MESSAGE] }
        sentToB := [ARQMessagePacket.new hasher 0 (END_COMMUNICATION_MESSAGE ++ [0]) 0]
        sentToA := [ARQACKPacket.new hasher true 0, ARQACKPacket.new hasher true 0]
        sendingRoutineRunning := false
        receiverReceivingRoutineRunning := false
        senderReceivingRoutineRunning := false } := by
    rw [step_senderReceivingRoutine hasher _ _ _ _ _ rfl rfl (receivingRoutine_end hasher _)]
    rfl
  have hrun := (run_cons_of_step hasher _ _ _ [] e4).trans rfl
  rw [← run_cons_of_step hasher _ _ _ _ e3, ← run_cons_of_step hasher _ _ _ _ e2,
    ← run_cons_of_step hasher _ _ _ _ e1] at hrun
  exact ⟨_, hrun, rfl, rfl, rfl, rfl, rfl, rfl⟩

/-- A run keeps the relation between the sequence-0 packets recorded on the two links and
the threads that have ended. -/
theorem run_sequenceZero (hasher : List Nat → Nat) (events : List Event) (σ σ' : System)
    (h : System.run hasher σ events = some σ')
    (hB : sequenceZeroPackets σ.sentToB = if σ.sendingRoutineRunning then 0 else 1)
    (hA : positiveSequenceZeroAcks σ.sentToA =
      (if σ.sendingRoutineRunning then 0 else 1) +
        (if σ.receiverReceivingRoutineRunning then 0 else 1)) :
    sequenceZeroPackets σ'.sentToB = (if σ'.sendingRoutineRunning then 0 else 1) ∧
    positiveSequenceZeroAcks σ'.sentToA =
      (if σ'.sendingRoutineRunning then 0 else 1) +
        (if σ'.receiverReceivingRoutineRunning then 0 else 1) := by
  induction events generalizing σ with
  | nil =>
    simp only [System.run, Option.some.injEq] at h
    subst h
    exact ⟨hB, hA⟩
  | cons event events ih =>
    simp only [System.run] at h
    cases hstep : σ.step hasher event with
    | none => simp [hstep] at h
    | some σ₁ =>
      simp only [hstep] at h
      obtain ⟨hB₁, hA₁⟩ := step_sequenceZero hasher σ σ₁ event hstep hB hA
      exact ih σ₁ h hB₁ hA₁

/-- C8 as amended: in every run of the composed sender, receiver and channel, whatever the
application sends and whatever the channel alters, the data packets with sequence number 0
handed to the sender-to-receiver link are none while the transmit loop runs and exactly one
once it has ended, and the positive acknowledgments for sequence 0 handed to the
receiver-to-sender link are one from the sender once its transmit loop has ended plus one
from the receiver once its loop has ended. -/
theorem sequence_zero_packets_of_run (hasher : List Nat → Nat) (avgValidBytes : Nat)
    (events : List Event) (σ : System)
    (h : System.run hasher (System.init avgValidBytes) events = some σ) :
    sequenceZeroPackets σ.sentToB = (if σ.sendingRoutineRunning then 0 else 1) ∧
    positiveSequenceZeroAcks σ.sentToA =
      (if σ.sendingRoutineRunning then 0 else 1) +
        (if σ.receiverReceivingRoutineRunning then 0 else 1) :=
  run_sequenceZero hasher events (System.init avgValidBytes) σ h rfl rfl

/-- C8 as amended, at the termination run on a channel with threshold 4096. -/
theorem sequence_zero_packets_of_terminationRun :
    ∃ σ : System, System.run (fun _ => 0) (System.init 4096) terminationRun = some σ ∧
      sequenceZeroPackets σ.sentToB = (if σ.sendingRoutineRunning then 0 else 1) ∧
      positiveSequenceZeroAcks σ.sentToA =
        (if σ.sendingRoutineRunning then 0 else 1) +
          (if σ.receiverReceivingRoutineRunning then 0 else 1) :=
  (terminationRun_result fun _ => 0).elim fun σ hσ =>
    ⟨σ, hσ.1, sequence_zero_packets_of_run (fun _ => 0) 4096 terminationRun σ hσ.1⟩

/-- C8 as stated fails: in the termination run the application calls `sendMessage` with the
sentinel exactly once and all three threads end; one data packet with sequence number 0 is
handed to the sender-to-receiver link, but two acknowledgment packets with sequence number
0 are handed to the receiver-to-sender link, the one the sender addresses to itself and the
one the receiver sends for the termination packet. -/
theorem terminationRun_two_sequence_zero_acks :
    sentinelCalls terminationRun = 1 ∧
    ∀ hasher : List Nat → Nat, ∃ σ : System,
      System.run hasher (System.init 4096) terminationRun = some σ ∧
      σ.sendingRoutineRunning = false ∧ σ.senderReceivingRoutineRunning = false ∧
      σ.receiverReceivingRoutineRunning = false ∧
      sequenceZeroPackets σ.sentToB = 1 ∧ sequenceZeroAcks σ.sentToA = 2 ∧
      sequenceZeroAcks σ.sentToA ≠ 1 := by
  refine ⟨by decide, fun hasher => ?_⟩
  obtain ⟨σ, hrun, hB, hA, h1, h2, h3, _⟩ := terminationRun_result hasher
  refine ⟨σ, hrun, h1, h2, h3, ?_, ?_, ?_⟩
  · rw [hB]; rfl
  · rw [hA]; rfl
  · rw [hA]; exact (by decide : (2 : Nat) ≠ 1)

/-- A copy of a validating data packet whose digest field holds any other value, a digest
with one bit flipped included, fails validation, whatever the hash function is. -/
theorem isValid_digest_altered (hasher : List Nat → Nat) (p : ARQMessagePacket) (digest : Nat)
    (hp : p.isValid hasher = true) (hd : digest ≠ p.packetDigest) :
    ARQMessagePacket.isValid hasher { p with packetDigest := digest } = false := by
  simp only [ARQMessagePacket.isValid, validateStringHash, ARQMessagePacket.hashedBytes,
    beq_iff_eq] at hp ⊢
  simp only [beq_eq_false_iff_ne, ne_eq]
  intro h
  exact hd (h.symm.trans hp)

/-- A copy of a validating data packet in which bytes outside the digest field were altered
validates exactly when the hash function takes the same value on the altered bytes. -/
theorem isValid_body_altered (hasher : List Nat → Nat) (p q : ARQMessagePacket)
    (hp : p.isValid hasher = true) (hq : q.packetDigest = p.packetDigest) :
    q.isValid hasher = true ↔
      hashString hasher q.hashedBytes = hashString hasher p.hashedBytes := by
  simp only [ARQMessagePacket.isValid, validateStringHash, beq_iff_eq, hashString] at hp ⊢
  rw [hq, hp]

/-- The queue after `sendMessage(std::string)` for a message shorter than `2 ^ 63` bytes that
is not taken for the sentinel: the packets queued before, a header with sequence number 1 and
length 8 whose payload starts with the eight bytes of the fragment count, and one fragment
per index with sequence number `index + 2`, whose payload holds, up to its logical length,
the message bytes from offset `1024 * index`; the logical length is 1024 except for the last
fragment, where it is the remainder of the division of the length by 1024. -/
theorem sendMessageString_structure (hasher : List Nat → Nat) (s : SnWARQSender)
    (M : List Nat) (h : M.length < 2 ^ 63)
    (hs : cString (M ++ [0]) ≠ END_COMMUNICATION_MESSAGE) :
    ∃ header : ARQMessagePacket, ∃ fragments : List ARQMessagePacket,
      (s.sendMessageString hasher M).packetsBuffer = s.packetsBuffer ++ header :: fragments ∧
      fragments.length = (M.length + 1023) / 1024 ∧
      header.packetNumber = 1 ∧ header.packetMessageSize = 8 ∧
      header.packetMessage.take 8 = sizeBytes ((M.length + 1023) / 1024) ∧
      readSize header.packetMessage = (M.length + 1023) / 1024 ∧
      ∀ i (hi : i < fragments.length),
        (fragments.get ⟨i, hi⟩).packetNumber = i + 2 ∧
        (fragments.get ⟨i, hi⟩).packetMessageSize =
          (if i = (M.length + 1023) / 1024 - 1 then M.length % 1024 else 1024) ∧
        (fragments.get ⟨i, hi⟩).packetMessage.take (fragments.get ⟨i, hi⟩).packetMessageSize =
          (M.drop (1024 * i)).take (fragments.get ⟨i, hi⟩).packetMessageSize := by
  have hN : packetCount M.length = (M.length + 1023) / 1024 := packetCount_of_lt _ h
  have hNlt : (M.length + 1023) / 1024 < SIZE_T_RANGE := by
    simp only [SIZE_T_RANGE]; omega
  refine ⟨_, _, sendMessageString_packetsBuffer hasher s M hs, ?_, rfl, rfl, ?_, ?_, ?_⟩
  · simp [hN]
  · rw [hN]
    simp only [ARQMessagePacket.new]
    rw [take_messageArea _ _ (by decide) (by rw [length_sizeBytes]),
      List.take_of_length_le (by rw [length_sizeBytes])]
  · rw [hN]
    exact readSize_messageArea_sizeBytes _ hNlt
  · intro i hi
    have hi' : i < (M.length + 1023) / 1024 := by simpa [hN] using hi
    simp only [List.get_eq_getElem, List.getElem_map, List.getElem_range]
    rw [fragmentPacket_of_lt hasher _ _ i h hi']
    refine ⟨rfl, rfl, ?_⟩
    simp only [ARQMessagePacket.new]
    have hsz : (if i = (M.length + 1023) / 1024 - 1 then M.length % 1024 else 1024) ≤
        PACKET_MESSAGE_SIZE := by
      simp only [PACKET_MESSAGE_SIZE]; split <;> omega
    have hlen : (if i = (M.length + 1023) / 1024 - 1 then M.length % 1024 else 1024) ≤
        (List.drop (i * 1024) M).length := by
      simp only [List.length_drop]; split <;> omega
    have hlen' : (if i = (M.length + 1023) / 1024 - 1 then M.length % 1024 else 1024) ≤
        (List.drop (i * 1024) (M ++ [0])).length := by
      rw [List.drop_append_of_le_length (by omega), List.length_append]; omega
    rw [take_messageArea _ _ hsz hlen', List.drop_append_of_le_length (by omega),
      List.take_append_of_le_length hlen, Nat.mul_comm 1024 i]

theorem messageArea_zero (message : List Nat) :
    messageArea message 0 = List.replicate PACKET_MESSAGE_SIZE 0 := by
  have h0 : min PACKET_MESSAGE_SIZE 0 = 0 := Nat.min_zero _
  rw [messageArea, h0, List.take_zero, Nat.sub_zero, List.nil_append]

/-- C11, evaluated where it fails: for the message of 1024 bytes `X`, which is not the
sentinel, `sendMessage` appends the header with count 1 and one fragment with sequence number
2; that fragment has logical length 0 and a payload of 1024 zero bytes, so it carries none of
the message bytes that start at offset 0. -/
theorem sendMessage_last_fragment_carries_nothing (hasher : List Nat → Nat)
    (s : SnWARQSender) :
    List.replicate 1024 88 ≠ END_COMMUNICATION_MESSAGE ∧
    (s.sendMessageString hasher (List.replicate 1024 88)).packetsBuffer =
      s.packetsBuffer ++
        [ARQMessagePacket.new hasher 1 (sizeBytes 1) 8,
          ARQMessagePacket.new hasher 2 (List.replicate 1024 88 ++ [0]) 0] ∧
    (ARQMessagePacket.new hasher 2 (List.replicate 1024 88 ++ [0]) 0).packetMessageSize = 0 ∧
    (ARQMessagePacket.new hasher 2 (List.replicate 1024 88 ++ [0]) 0).packetMessage =
      List.replicate 1024 0 ∧
    (ARQMessagePacket.new hasher 2 (List.replicate 1024 88 ++ [0]) 0).packetMessage ≠
      List.replicate 1024 88 := by
  have hX : cString (List.replicate 1024 88 ++ [0]) ≠ END_COMMUNICATION_MESSAGE := by
    rw [show (1024 : Nat) = 1023 + 1 from rfl, List.replicate_succ, List.cons_append]
    exact cString_cons_ne_sentinel 88 _ (by decide)
  have hlen : (List.replicate 1024 88 : List Nat).length = 1024 := List.length_replicate _ _
  have hcount : packetCount 1024 = 1 := by decide
  have hfrag := fragmentPacket_of_lt hasher (List.replicate 1024 88 ++ [0]) 1024 0
    (by decide) (by decide)
  have hpayload : (ARQMessagePacket.new hasher 2 (List.replicate 1024 88 ++ [0]) 0).packetMessage
      = List.replicate 1024 0 := messageArea_zero _
  refine ⟨?_, ?_, rfl, hpayload, ?_⟩
  · intro h
    have := congrArg List.length h
    rw [hlen] at this
    simp [END_COMMUNICATION_MESSAGE] at this
  · rw [sendMessageString_packetsBuffer hasher _ _ hX, hlen, hcount]
    have hr : List.range 1 = [0] := rfl
    rw [hr, List.map_cons, List.map_nil, hfrag]
    rfl
  · rw [hpayload, show (1024 : Nat) = 1023 + 1 from rfl, List.replicate_succ,
      List.replicate_succ]
    intro h
    exact absurd (List.cons.inj h).1 (by decide)

/-- One iteration of the receiver loop inside the composed system. -/
theorem step_receiverReceivingRoutine (hasher : List Nat → Nat) (σ : System) (buffer : List Nat)
    (rest : List (List Nat)) (r₁ r₂ : Nat)
    (hrun : σ.receiverReceivingRoutineRunning = true)
    (hbuf : σ.channel.bufferB = buffer :: rest) :
    σ.step hasher (Event.receiverReceivingRoutine r₁ r₂) =
      some { σ with
        channel := NoisyChannel.sendToA
          { σ.channel with
            bufferB := rest
            totalPacketsReceivedFromB :=
              (σ.channel.totalPacketsReceivedFromB + 1) % SIZE_T_RANGE }
          (σ.receiver.receivingRoutine hasher buffer).2.1.bytes ARQACKPacket.sizeof r₁ r₂
        receiver := (σ.receiver.receivingRoutine hasher buffer).1
        sentToA := σ.sentToA ++ [(σ.receiver.receivingRoutine hasher buffer).2.1]
        receiverReceivingRoutineRunning := (σ.receiver.receivingRoutine hasher buffer).2.2 } := by
  simp only [System.step, hrun, if_true, NoisyChannel.recvFromB, hbuf]

/-- C12: one iteration of the receiver loop on the buffer it takes from the channel hands
exactly one acknowledgment packet to the reverse link; its sequence number is the sequence
field read from the buffer and its flag is true exactly when the buffer validates. When the
buffer does not validate the receiver (assembly state and output queue) is unchanged and the
loop goes on; when it validates the packet is handled by `handleMessagePacket`, duplicate or
not, and the loop ends exactly when the sequence number is 0. -/
theorem receivingRoutine_iteration (hasher : List Nat → Nat) (σ : System) (buffer : List Nat)
    (rest : List (List Nat)) (r₁ r₂ : Nat)
    (hrun : σ.receiverReceivingRoutineRunning = true)
    (hbuf : σ.channel.bufferB = buffer :: rest) :
    ∃ σ' : System, σ.step hasher (Event.receiverReceivingRoutine r₁ r₂) = some σ' ∧
      σ'.sentToA = σ.sentToA ++
        [ARQACKPacket.new hasher ((ARQMessagePacket.ofBytes buffer).isValid hasher)
          (readSize (buffer.drop 8))] ∧
      σ'.channel.bufferA.length = σ.channel.bufferA.length + 1 ∧
      σ'.channel.bufferB = rest ∧ σ'.sentToB = σ.sentToB ∧ σ'.sender = σ.sender ∧
      ((ARQMessagePacket.ofBytes buffer).isValid hasher = false →
        σ'.receiver = σ.receiver ∧ σ'.receiverReceivingRoutineRunning = true) ∧
      ((ARQMessagePacket.ofBytes buffer).isValid hasher = true →
        σ'.receiver = σ.receiver.handleMessagePacket (ARQMessagePacket.ofBytes buffer) ∧
        (σ'.receiverReceivingRoutineRunning = false ↔ readSize (buffer.drop 8) = 0)) := by
  have hnum : (ARQMessagePacket.ofBytes buffer).packetNumber = readSize (buffer.drop 8) := rfl
  refine ⟨_, step_receiverReceivingRoutine hasher σ buffer rest r₁ r₂ hrun hbuf, ?_, ?_, rfl,
    rfl, rfl, ?_, ?_⟩
  · simp only [SnWARQReceiver.receivingRoutine]
    cases hv : (ARQMessagePacket.ofBytes buffer).isValid hasher <;> simp [hnum]
  · simp [NoisyChannel.sendToA]
  · intro hv
    simp [SnWARQReceiver.receivingRoutine, hv]
  · intro hv
    simp [SnWARQReceiver.receivingRoutine, hv, hnum]

/-- C12 at a channel that holds the unaltered bytes of a fragment with sequence number 2. -/
theorem receivingRoutine_iteration_fragment :
    ∃ σ' : System,
      System.step (fun _ => 0)
        { System.init 4096 with
          channel := { NoisyChannel.new 4096 with
            bufferB := [(ARQMessagePacket.new (fun _ => 0) 2 [65] 1).bytes] } }
        (Event.receiverReceivingRoutine 0 0) = some σ' ∧
      σ'.sentToA =
        [ARQACKPacket.new (fun _ => 0)
          ((ARQMessagePacket.ofBytes
            (ARQMessagePacket.new (fun _ => 0) 2 [65] 1).bytes).isValid (fun _ => 0))
          (readSize ((ARQMessagePacket.new (fun _ => 0) 2 [65] 1).bytes.drop 8))] :=
  (receivingRoutine_iteration (fun _ => 0)
    { System.init 4096 with
      channel := { NoisyChannel.new 4096 with
        bufferB := [(ARQMessagePacket.new (fun _ => 0) 2 [65] 1).bytes] } }
    (ARQMessagePacket.new (fun _ => 0) 2 [65] 1).bytes [] 0 0 rfl rfl).elim
    fun σ' h => ⟨σ', h.1, h.2.1⟩

/-- C13: whatever the receiver state, in the middle of an assembly or not, handling a packet
with sequence number 1 whose payload starts with the eight bytes of the count `N` sets the
last accepted number to 1, empties the accumulation buffer, sets the remaining count to `N`
and leaves the output queue unchanged; the receiver afterwards, and so every message
completed later, does not depend on the assembly state before. -/
theorem handleMessagePacket_header_resets (r : SnWARQReceiver) (p : ARQMessagePacket) (N : Nat)
    (rest : List Nat) (hp : p.packetNumber = 1) (hN : N < SIZE_T_RANGE)
    (hpayload : p.packetMessage = sizeBytes N ++ rest) :
    r.handleMessagePacket p =
      { currentMessagePackets := N, lastMessageNumber := 1, currentMessage := [],
        receivedMessages := r.receivedMessages } ∧
    ∀ r' : SnWARQReceiver, r'.receivedMessages = r.receivedMessages →
      ∀ packets : List ARQMessagePacket,
        (r'.handleMessagePacket p).handleMessagePackets packets =
          (r.handleMessagePacket p).handleMessagePackets packets := by
  have hread : readSize p.packetMessage = N := by
    rw [hpayload, readSize_sizeBytes_append N hN]
  refine ⟨?_, ?_⟩
  · rw [handleMessagePacket_header r p hp, hread]
  · intro r' hr' packets
    rw [handleMessagePacket_header r p hp, handleMessagePacket_header r' p hp, hr']

/-- C13 at a receiver that has accepted fragment 2 of three and holds one byte, and the
header of a message of two fragments. -/
theorem handleMessagePacket_header_resets_mid_assembly :
    SnWARQReceiver.handleMessagePacket
        { currentMessagePackets := 2, lastMessageNumber := 2, currentMessage := [65],
          receivedMessages := [[66]] }
        (ARQMessagePacket.new (fun _ => 0) 1 (sizeBytes 2) 8) =
      { currentMessagePackets := 2, lastMessageNumber := 1, currentMessage := [],
        receivedMessages := [[66]] } :=
  (handleMessagePacket_header_resets
    { currentMessagePackets := 2, lastMessageNumber := 2, currentMessage := [65],
      receivedMessages := [[66]] }
    (ARQMessagePacket.new (fun _ => 0) 1 (sizeBytes 2) 8) 2
    (List.replicate (PACKET_MESSAGE_SIZE - min PACKET_MESSAGE_SIZE 8) 0) rfl (by decide)
    rfl).1

theorem differingBitsOfByte_self (x : Nat) : differingBitsOfByte x x = 0 := by
  simp [differingBitsOfByte]

/-- Flipping one of the eight bits of a byte changes exactly that bit. -/
theorem differingBitsOfByte_flip (x k : Nat) (hk : k < 8) :
    differingBitsOfByte x (x ^^^ (1 <<< k)) = 1 := by
  have hfun : (fun j => x.testBit j != (x ^^^ (1 <<< k)).testBit j) = fun j => decide (k = j) := by
    funext j
    rw [Nat.testBit_xor, Nat.one_shiftLeft, Nat.testBit_two_pow]
    by_cases hkj : k = j <;> cases x.testBit j <;> simp [hkj]
  rw [differingBitsOfByte, hfun]
  have hk' : k = 0 ∨ k = 1 ∨ k = 2 ∨ k = 3 ∨ k = 4 ∨ k = 5 ∨ k = 6 ∨ k = 7 := by omega
  rcases hk' with rfl | rfl | rfl | rfl | rfl | rfl | rfl | rfl <;> decide

theorem differingBits_self (a : List Nat) : differingBits a a = 0 := by
  induction a with
  | nil => rfl
  | cons x xs ih =>
    simp only [differingBits, List.zip_cons_cons, List.map_cons, List.sum_cons] at ih ⊢
    rw [ih, differingBitsOfByte_self]

theorem differingBits_modify (f : Nat → Nat) (a : List Nat) (i : Nat) (hi : i < a.length) :
    differingBits a (a.modify f i) = differingBitsOfByte (a.get ⟨i, hi⟩) (f (a.get ⟨i, hi⟩)) := by
  induction a generalizing i with
  | nil => simp at hi
  | cons x xs ih =>
    cases i with
    | zero =>
      have hself := differingBits_self xs
      simp only [differingBits] at hself
      simp [differingBits, hself]
    | succ i =>
      have hi' : i < xs.length := by simpa using hi
      have := ih i hi'
      simp only [differingBits, List.get_eq_getElem] at this
      simp [differingBits, differingBitsOfByte_self, this]

theorem length_flipRandomBit (message : List Nat) (r₁ r₂ : Nat) :
    (flipRandomBit message r₁ r₂).length = message.length := by
  simp [flipRandomBit]

/-- The function `flipRandomBit` changes exactly one bit of a non-empty buffer. -/
theorem differingBits_flipRandomBit (message : List Nat) (r₁ r₂ : Nat) (h : message ≠ []) :
    differingBits message (flipRandomBit message r₁ r₂) = 1 := by
  have hpos : 0 < message.length := List.length_pos.mpr h
  have hi : r₁ % max 1 message.length < message.length := by
    rw [Nat.max_eq_right hpos]
    exact Nat.mod_lt _ hpos
  rw [flipRandomBit, differingBits_modify _ _ _ hi]
  exact differingBitsOfByte_flip _ _ (Nat.mod_lt _ (by decide))

/-- On a non-empty queue `recv` returns the oldest buffer, removes it and leaves the other
direction alone. -/
theorem recv_cons (c : NoisyChannel) (d : Direction) (m : List Nat) (rest : List (List Nat))
    (h : c.buffer d = m :: rest) :
    ∃ c' : NoisyChannel, c.recv d = some (m, c') ∧ c'.buffer d = rest ∧
      c'.buffer d.other = c.buffer d.other ∧ c'.validBytes d = c.validBytes d := by
  cases d with
  | A =>
    simp only [NoisyChannel.buffer] at h
    have hr : c.recv Direction.A = some (m, { c with
        bufferA := rest
        totalPacketsReceivedFromA := (c.totalPacketsReceivedFromA + 1) % SIZE_T_RANGE }) := by
      simp only [NoisyChannel.recv, NoisyChannel.recvFromA, h]
    exact ⟨_, hr, rfl, rfl, rfl⟩
  | B =>
    simp only [NoisyChannel.buffer] at h
    have hr : c.recv Direction.B = some (m, { c with
        bufferB := rest
        totalPacketsReceivedFromB := (c.totalPacketsReceivedFromB + 1) % SIZE_T_RANGE }) := by
      simp only [NoisyChannel.recv, NoisyChannel.recvFromB, h]
    exact ⟨_, hr, rfl, rfl, rfl⟩

/-- As many calls of `recv` as the queue holds buffers return them oldest first. -/
theorem recvMany_buffer (d : Direction) (l : List (List Nat)) (c : NoisyChannel)
    (h : c.buffer d = l) :
    ∃ c' : NoisyChannel, NoisyChannel.recvMany d l.length c = some (l, c') ∧
      c'.buffer d = [] := by
  induction l generalizing c with
  | nil => exact ⟨c, rfl, h⟩
  | cons m rest ih =>
    obtain ⟨c₁, h1, h2, _, _⟩ := recv_cons c d m rest h
    obtain ⟨c₂, h3, h4⟩ := ih c₁ h2
    exact ⟨c₂, by simp only [List.length_cons, NoisyChannel.recvMany, h1, h3], h4⟩

/-- What `send` does to the queues: one buffer appended to the queue of its direction, a copy
of the first `size` bytes of the input when the counter of the direction exceeds `size`, and
that copy with a bit flipped otherwise; the other queue is unchanged. -/
theorem send_buffer (c : NoisyChannel) (d : Direction) (message : List Nat) (size r₁ r₂ : Nat) :
    (c.send d message size r₁ r₂).buffer d =
      c.buffer d ++
        [if c.validBytes d > size then message.take size
          else flipRandomBit (message.take size) r₁ r₂] ∧
    (c.send d message size r₁ r₂).buffer d.other = c.buffer d.other := by
  cases d <;>
    simp only [NoisyChannel.send, NoisyChannel.sendToA, NoisyChannel.sendToB,
      NoisyChannel.buffer, NoisyChannel.validBytes, Direction.other, validBytesAfter] <;>
    split <;> simp

/-- C14: for every channel state, direction, non-empty buffer and values of `rand()`, `send`
appends exactly one buffer to the back of the queue of its direction and leaves the other
queue unchanged; the appended buffer has the length of the input and differs from it in no
bit when the counter of the direction exceeds the size, in exactly one bit otherwise; `recv`
on a non-empty queue returns and removes its oldest buffer, so that after the send the
buffers queued before come out first, in order, followed by the appended one. -/
theorem send_appends_one_recv_takes_oldest (c : NoisyChannel) (d : Direction) (message : List Nat)
    (r₁ r₂ : Nat) (hne : message ≠ []) :
    (∃ x : List Nat,
      (c.send d message message.length r₁ r₂).buffer d = c.buffer d ++ [x] ∧
      (c.send d message message.length r₁ r₂).buffer d.other = c.buffer d.other ∧
      x.length = message.length ∧
      differingBits message x = (if c.validBytes d > message.length then 0 else 1) ∧
      ∃ c' : NoisyChannel,
        NoisyChannel.recvMany d ((c.buffer d).length + 1)
          (c.send d message message.length r₁ r₂) = some (c.buffer d ++ [x], c') ∧
        c'.buffer d = []) ∧
    ∀ (m : List Nat) (rest : List (List Nat)), c.buffer d = m :: rest →
      ∃ c' : NoisyChannel, c.recv d = some (m, c') ∧ c'.buffer d = rest ∧
        c'.buffer d.other = c.buffer d.other := by
  refine ⟨?_, fun m rest h => ?_⟩
  · obtain ⟨hs1, hs2⟩ := send_buffer c d message message.length r₁ r₂
    rw [List.take_length] at hs1
    refine ⟨_, hs1, hs2, ?_, ?_, ?_⟩
    · split
      · rfl
      · exact length_flipRandomBit _ _ _
    · split
      · exact differingBits_self _
      · exact differingBits_flipRandomBit _ _ _ hne
    · have := recvMany_buffer d _ (c.send d message message.length r₁ r₂) hs1
      simpa using this
  · obtain ⟨c', h1, h2, h3, _⟩ := recv_cons c d m rest h
    exact ⟨c', h1, h2, h3⟩

/-- C14 at the default channel, the forward direction and a buffer of two bytes: the
buffer is appended unaltered, the counter 1024 exceeding its size. -/
theorem send_appends_one_recv_takes_oldest_default :
    ∃ x : List Nat,
      ((NoisyChannel.new 1024).send Direction.B [65, 66] 2 0 0).buffer Direction.B =
        (NoisyChannel.new 1024).buffer Direction.B ++ [x] ∧
      differingBits [65, 66] x = 0 :=
  (send_appends_one_recv_takes_oldest (NoisyChannel.new 1024) Direction.B [65, 66] 0 0
    (by decide)).1.elim fun x h => ⟨x, h.1, h.2.2.2.1⟩

/-- One send of at most `T` bytes when the counter is `T - B % T` after `B` bytes: the
counter becomes `T - (B + size) % T`, and a bit is flipped exactly when the total passes a
multiple of `T`. -/
theorem validBytesAfter_of_total (T B size : Nat) (hT : 1 ≤ T) (hT64 : T < SIZE_T_RANGE)
    (hs : size ≤ T) :
    (validBytesAfter T (T - B % T) size).1 = T - (B + size) % T ∧
    (if (validBytesAfter T (T - B % T) size).2 then 1 else 0) = (B + size) / T - B / T := by
  have hm : B % T < T := Nat.mod_lt _ (by omega)
  have hB : B + size = (B % T + size) + T * (B / T) := by
    have := Nat.div_add_mod B T
    omega
  by_cases hlt : B % T + size < T
  · have hmod : (B + size) % T = B % T + size := by
      rw [hB, Nat.add_mul_mod_self_left, Nat.mod_eq_of_lt hlt]
    have hdiv : (B + size) / T = B / T := by
      rw [hB, Nat.add_mul_div_left _ _ (by omega : 0 < T), Nat.div_eq_of_lt hlt, Nat.zero_add]
    have hgt : T - B % T > size := by omega
    simp only [validBytesAfter, if_pos hgt, hmod, hdiv]
    constructor
    · omega
    · simp
  · have hlt2 : B % T + size - T < T := by omega
    have hB2 : B + size = (B % T + size - T) + T * (B / T + 1) := by
      rw [Nat.mul_add, Nat.mul_one]
      omega
    have hmod : (B + size) % T = B % T + size - T := by
      rw [hB2, Nat.add_mul_mod_self_left, Nat.mod_eq_of_lt hlt2]
    have hdiv : (B + size) / T = B / T + 1 := by
      rw [hB2, Nat.add_mul_div_left _ _ (by omega : 0 < T), Nat.div_eq_of_lt hlt2,
        Nat.zero_add]
    have hgt : ¬ T - B % T > size := by omega
    simp only [validBytesAfter, if_neg hgt, hmod, hdiv]
    constructor
    · simp only [SIZE_T_RANGE] at hT64 ⊢
      omega
    · simp

/-- Sends of at most `T` bytes each, started when the counter is `T - B % T` after `B`
bytes. -/
theorem validBytesAfterSends_of_total (T : Nat) (hT : 1 ≤ T) (hT64 : T < SIZE_T_RANGE)
    (sizes : List Nat) (hs : ∀ s ∈ sizes, s ≤ T) (B : Nat) :
    validBytesAfterSends T (T - B % T) sizes = T - (B + sizes.sum) % T ∧
    corruptedSends T (T - B % T) sizes = (B + sizes.sum) / T - B / T := by
  induction sizes generalizing B with
  | nil => simp [validBytesAfterSends, corruptedSends]
  | cons s rest ih =>
    obtain ⟨h1, h2⟩ := validBytesAfter_of_total T B s hT hT64 (hs s (List.mem_cons_self _ _))
    obtain ⟨h3, h4⟩ := ih (fun x hx => hs x (List.mem_cons_of_mem _ hx)) (B + s)
    simp only [validBytesAfterSends, List.foldl_cons, corruptedSends, List.sum_cons] at h3 ⊢
    rw [h1, h2, h3, h4, Nat.add_assoc]
    refine ⟨rfl, ?_⟩
    have hmono1 : B / T ≤ (B + s) / T := Nat.div_le_div_right (by omega)
    have hmono2 : (B + s) / T ≤ (B + (s + rest.sum)) / T := Nat.div_le_div_right (by omega)
    omega

/-- The counter statement folded over the sizes of the first `k` sends, each of at most `T`
bytes, from the initial counter `T`: `B / T` of them flip a bit and the counter ends at
`T - B % T`, where `B` is the sum of the sizes. -/
theorem validBytesAfterSends_take (T : Nat) (sizes : List Nat) (k : Nat) (hT : 1 ≤ T)
    (hT64 : T < SIZE_T_RANGE) (hs : ∀ s ∈ sizes, s ≤ T) :
    corruptedSends T T (sizes.take k) = (sizes.take k).sum / T ∧
    validBytesAfterSends T T (sizes.take k) = T - (sizes.take k).sum % T := by
  have h := validBytesAfterSends_of_total T hT hT64 (sizes.take k)
    (fun s hmem => hs s (List.mem_of_mem_take hmem)) 0
  simp only [Nat.zero_mod, Nat.sub_zero, Nat.zero_add, Nat.zero_div] at h
  exact ⟨h.2, h.1⟩

/-- What `send` does to the counters: the counter of its direction follows the counter
statement, the other counter and the threshold are unchanged. -/
theorem send_validBytes (c : NoisyChannel) (d : Direction) (message : List Nat)
    (size r₁ r₂ : Nat) :
    (c.send d message size r₁ r₂).validBytes d =
      (validBytesAfter c.avgValidBytes (c.validBytes d) size).1 ∧
    (c.send d message size r₁ r₂).validBytes d.other = c.validBytes d.other ∧
    (c.send d message size r₁ r₂).avgValidBytes = c.avgValidBytes := by
  cases d <;> exact ⟨rfl, rfl, rfl⟩

/-- One iteration of the transmit loop inside the composed system when the front packet is
not the termination packet. -/
theorem step_sendingRoutine_data (hasher : List Nat → Nat) (σ : System) (front : ARQMessagePacket)
    (rest : List ARQMessagePacket) (r₁ r₂ r₃ r₄ : Nat)
    (hrun : σ.sendingRoutineRunning = true)
    (hq : σ.sender.packetsBuffer = front :: rest) (h0 : front.packetNumber ≠ 0) :
    σ.step hasher (Event.sendingRoutine r₁ r₂ r₃ r₄) =
      some { σ with
        channel := σ.channel.sendToB front.bytes ARQMessagePacket.sizeof r₁ r₂
        sentToB := σ.sentToB ++ [front]
        sendingRoutineRunning := true } := by
  simp only [System.step, hrun, if_true, SnWARQSender.sendingRoutine, hq, h0, if_false]

/-- One iteration of the transmit loop inside the composed system when the front packet is
the termination packet. -/
theorem step_sendingRoutine_termination (hasher : List Nat → Nat) (σ : System)
    (front : ARQMessagePacket) (rest : List ARQMessagePacket) (r₁ r₂ r₃ r₄ : Nat)
    (hrun : σ.sendingRoutineRunning = true)
    (hq : σ.sender.packetsBuffer = front :: rest) (h0 : front.packetNumber = 0) :
    σ.step hasher (Event.sendingRoutine r₁ r₂ r₃ r₄) =
      some { σ with
        channel := (σ.channel.sendToB front.bytes ARQMessagePacket.sizeof r₁ r₂).sendToA
          (ARQACKPacket.new hasher true 0).bytes ARQACKPacket.sizeof r₃ r₄
        sentToB := σ.sentToB ++ [front]
        sentToA := σ.sentToA ++ [ARQACKPacket.new hasher true 0]
        sendingRoutineRunning := false } := by
  simp only [System.step, hrun, if_true, SnWARQSender.sendingRoutine, hq, h0]

/-- C16: one iteration of the transmit loop of the sender with a non-empty outstanding queue
hands to `sendToB` exactly one buffer, the bytes of the front packet, which the channel
appends to the forward queue (with one bit flipped when its counter does not exceed the
size); the queue of the sender is unchanged. When the sequence number of the front packet is
not 0 nothing is handed to the reverse link and the loop goes on; when it is 0 one positive
acknowledgment for sequence 0 is handed to the reverse link as well and the loop ends, after
which no further iteration takes place. -/
theorem sendingRoutine_iteration (hasher : List Nat → Nat) (σ : System) (front : ARQMessagePacket)
    (rest : List ARQMessagePacket) (r₁ r₂ r₃ r₄ : Nat)
    (hrun : σ.sendingRoutineRunning = true)
    (hq : σ.sender.packetsBuffer = front :: rest) :
    (σ.sender.sendingRoutine hasher).1 = some front ∧
    ∃ σ' : System, σ.step hasher (Event.sendingRoutine r₁ r₂ r₃ r₄) = some σ' ∧
      σ'.sender = σ.sender ∧ σ'.receiver = σ.receiver ∧
      σ'.sentToB = σ.sentToB ++ [front] ∧
      σ'.channel.bufferB = σ.channel.bufferB ++
        [if σ.channel.bytesB > ARQMessagePacket.sizeof
          then front.bytes.take ARQMessagePacket.sizeof
          else flipRandomBit (front.bytes.take ARQMessagePacket.sizeof) r₁ r₂] ∧
      (front.packetNumber ≠ 0 →
        σ'.sentToA = σ.sentToA ∧ σ'.channel.bufferA = σ.channel.bufferA ∧
        σ'.sendingRoutineRunning = true) ∧
      (front.packetNumber = 0 →
        σ'.sentToA = σ.sentToA ++ [ARQACKPacket.new hasher true 0] ∧
        σ'.channel.bufferA.length = σ.channel.bufferA.length + 1 ∧
        σ'.sendingRoutineRunning = false ∧
        ∀ s₁ s₂ s₃ s₄ : Nat, σ'.step hasher (Event.sendingRoutine s₁ s₂ s₃ s₄) = none) := by
  have hB := (send_buffer σ.channel Direction.B front.bytes ARQMessagePacket.sizeof r₁ r₂).1
  simp only [NoisyChannel.send, NoisyChannel.buffer, NoisyChannel.validBytes] at hB
  refine ⟨?_, ?_⟩
  · simp only [SnWARQSender.sendingRoutine, hq]
    split <;> rfl
  by_cases h0 : front.packetNumber = 0
  · refine ⟨_, step_sendingRoutine_termination hasher σ front rest r₁ r₂ r₃ r₄ hrun hq h0,
      rfl, rfl, rfl, hB, fun h => absurd h0 h, fun _ => ⟨rfl, ?_, rfl, fun s₁ s₂ s₃ s₄ => ?_⟩⟩
    · simp [NoisyChannel.sendToA, NoisyChannel.sendToB]
    · simp [System.step]
  · refine ⟨_, step_sendingRoutine_data hasher σ front rest r₁ r₂ r₃ r₄ hrun hq h0,
      rfl, rfl, rfl, hB, fun _ => ⟨rfl, rfl, rfl⟩, fun h => absurd h h0⟩

/-- C16 at a sender whose queue holds the fragment with sequence number 2 followed by the
termination packet: the fragment is handed to the forward link and the queue stays. -/
theorem sendingRoutine_iteration_fragment :
    ∃ σ' : System,
      System.step (fun _ => 0)
        { System.init 4096 with
          sender := { packetsBuffer := [ARQMessagePacket.new (fun _ => 0) 2 [65] 1,
            ARQMessagePacket.new (fun _ => 0) 0 [] 0] } }
        (Event.sendingRoutine 0 0 0 0) = some σ' ∧
      σ'.sender = { packetsBuffer := [ARQMessagePacket.new (fun _ => 0) 2 [65] 1,
            ARQMessagePacket.new (fun _ => 0) 0 [] 0] } ∧
      σ'.sentToB = [ARQMessagePacket.new (fun _ => 0) 2 [65] 1] :=
  (sendingRoutine_iteration (fun _ => 0)
    { System.init 4096 with
      sender := { packetsBuffer := [ARQMessagePacket.new (fun _ => 0) 2 [65] 1,
        ARQMessagePacket.new (fun _ => 0) 0 [] 0] } }
    (ARQMessagePacket.new (fun _ => 0) 2 [65] 1) [ARQMessagePacket.new (fun _ => 0) 0 [] 0]
    0 0 0 0 rfl rfl).2.elim fun σ' h => ⟨σ', h.1, h.2.1, h.2.2.2.1⟩

/-- The buffer `send` appends when the counter of the direction is at least 1: a copy of the
input when the counter exceeds its length, a copy with exactly one bit flipped otherwise. -/
theorem send_appended (c : NoisyChannel) (d : Direction) (m : List Nat) (r₁ r₂ : Nat)
    (hpos : 1 ≤ c.validBytes d) :
    ∃ y : List Nat, (c.send d m m.length r₁ r₂).buffer d = c.buffer d ++ [y] ∧
      differingBits m y = (if c.validBytes d > m.length then 0 else 1) ∧
      (if (m != y) = true then 1 else 0) = (if c.validBytes d > m.length then 0 else 1) ∧
      (if (validBytesAfter c.avgValidBytes (c.validBytes d) m.length).2 then 1 else 0) =
        (if c.validBytes d > m.length then 0 else 1) := by
  have hs1 := (send_buffer c d m m.length r₁ r₂).1
  rw [List.take_length] at hs1
  refine ⟨_, hs1, ?_, ?_, ?_⟩
  · split
    · exact differingBits_self _
    · rename_i hgt
      have hne : m ≠ [] := by
        intro h
        rw [h] at hgt
        simp only [List.length_nil] at hgt
        omega
      exact differingBits_flipRandomBit _ _ _ hne
  · by_cases hgt : c.validBytes d > m.length
    · simp [hgt]
    · have hne : m ≠ [] := by
        intro h
        rw [h] at hgt
        simp only [List.length_nil] at hgt
        omega
      have hbits := differingBits_flipRandomBit m r₁ r₂ hne
      have hneq : m ≠ flipRandomBit m r₁ r₂ := by
        intro h
        rw [← h, differingBits_self] at hbits
        exact absurd hbits (by decide)
      simp [hgt, hneq]
  · simp only [validBytesAfter]
    split <;> simp

/-- Sends of at most `T` bytes each on one direction of a channel with threshold `T`,
started when the counter of the direction is `T - B % T` after `B` bytes. -/
theorem sendAll_of_total (T : Nat) (hT : 1 ≤ T) (hT64 : T < SIZE_T_RANGE) (d : Direction)
    (sends : List (List Nat × Nat × Nat)) (hs : ∀ x ∈ sends, x.1.length ≤ T)
    (c : NoisyChannel) (B : Nat) (hc : c.avgValidBytes = T)
    (hv : c.validBytes d = T - B % T) :
    ∃ queued : List (List Nat),
      (c.sendAll d sends).buffer d = c.buffer d ++ queued ∧
      queued.length = sends.length ∧
      alteredBuffers (sentBuffers sends) queued = (B + sentBytes sends) / T - B / T ∧
      alteredBits (sentBuffers sends) queued = (B + sentBytes sends) / T - B / T ∧
      (c.sendAll d sends).validBytes d = T - (B + sentBytes sends) % T ∧
      (c.sendAll d sends).buffer d.other = c.buffer d.other := by
  induction sends generalizing c B with
  | nil =>
    exact ⟨[], by simp [NoisyChannel.sendAll], rfl,
      by simp [alteredBuffers, sentBuffers, sentBytes],
      by simp [alteredBits, sentBuffers, sentBytes],
      by simpa [NoisyChannel.sendAll, sentBytes] using hv, rfl⟩
  | cons x rest ih =>
    have hlen : x.1.length ≤ T := hs x (List.mem_cons_self _ _)
    have hm : B % T < T := Nat.mod_lt _ (by omega)
    have hpos : 1 ≤ c.validBytes d := by rw [hv]; omega
    obtain ⟨y, hy1, hy2, hy3, hy4⟩ := send_appended c d x.1 x.2.1 x.2.2 hpos
    obtain ⟨hv1, _, hc1⟩ := send_validBytes c d x.1 x.1.length x.2.1 x.2.2
    obtain ⟨ht1, ht2⟩ := validBytesAfter_of_total T B x.1.length hT hT64 hlen
    rw [hc, hv] at hv1 hy4
    rw [hv] at hy2 hy3
    rw [ht1] at hv1
    rw [ht2] at hy4
    obtain ⟨queued, hq1, hq2, hq3, hq4, hq5, hq6⟩ :=
      ih (fun z hz => hs z (List.mem_cons_of_mem _ hz))
        (c.send d x.1 x.1.length x.2.1 x.2.2) (B + x.1.length) (hc1.trans hc) hv1
    have hmono1 : B / T ≤ (B + x.1.length) / T := Nat.div_le_div_right (by omega)
    have hmono2 : (B + x.1.length) / T ≤ (B + x.1.length + sentBytes rest) / T :=
      Nat.div_le_div_right (by omega)
    have hbytes : sentBytes (x :: rest) = x.1.length + sentBytes rest := by
      simp [sentBytes]
    have hsend : c.sendAll d (x :: rest) =
        (c.send d x.1 x.1.length x.2.1 x.2.2).sendAll d rest := rfl
    rw [hsend, hbytes, ← Nat.add_assoc]
    refine ⟨y :: queued, ?_, ?_, ?_, ?_, hq5, ?_⟩
    · rw [hq1, hy1, List.append_assoc, List.singleton_append]
    · simp [hq2]
    · simp only [alteredBuffers, sentBuffers, List.map_cons, List.zip_cons_cons,
        List.countP_cons] at hq3 ⊢
      rw [hq3, hy3, ← hy4]
      omega
    · simp only [alteredBits, sentBuffers, List.map_cons, List.zip_cons_cons,
        List.sum_cons] at hq4 ⊢
      rw [hq4, hy2, ← hy4]
      omega
    · rw [hq6]
      exact (send_buffer c d x.1 x.1.length x.2.1 x.2.2).2

/-- C15: on a channel constructed with threshold `T ≥ 1` (a `std::size_t`), for either
direction and every sequence of `sendToA` or `sendToB` calls on it with buffers of at most
`T` bytes each, after every number `k` of sends the queue of the direction holds the `k`
buffers sent, of which exactly `B / T` are not byte-for-byte copies, where `B` is the number
of bytes sent so far; those differ from what was sent in `B / T` bits altogether, one bit
each; the counter of the direction (`bytes` of `sendToA` or of `sendToB`) is `T - B % T`; the
queue of the other direction stays empty. -/
theorem sends_flip_one_bit_per_threshold_bytes (T : Nat) (d : Direction)
    (sends : List (List Nat × Nat × Nat)) (k : Nat) (hT : 1 ≤ T) (hT64 : T < SIZE_T_RANGE)
    (hs : ∀ x ∈ sends, x.1.length ≤ T) :
    (((NoisyChannel.new T).sendAll d (sends.take k)).buffer d).length = (sends.take k).length ∧
    alteredBuffers (sentBuffers (sends.take k))
        (((NoisyChannel.new T).sendAll d (sends.take k)).buffer d) =
      sentBytes (sends.take k) / T ∧
    alteredBits (sentBuffers (sends.take k))
        (((NoisyChannel.new T).sendAll d (sends.take k)).buffer d) =
      sentBytes (sends.take k) / T ∧
    ((NoisyChannel.new T).sendAll d (sends.take k)).validBytes d =
      T - sentBytes (sends.take k) % T ∧
    ((NoisyChannel.new T).sendAll d (sends.take k)).buffer d.other = [] := by
  have hnew : (NoisyChannel.new T).validBytes d = T - 0 % T := by
    cases d <;> simp [NoisyChannel.new, NoisyChannel.validBytes]
  have hempty : ∀ e : Direction, (NoisyChannel.new T).buffer e = [] := by
    intro e
    cases e <;> rfl
  obtain ⟨queued, h1, h2, h3, h4, h5, h6⟩ := sendAll_of_total T hT hT64 d (sends.take k)
    (fun x hx => hs x (List.mem_of_mem_take hx)) (NoisyChannel.new T) 0 rfl hnew
  simp only [Nat.zero_add, Nat.zero_div, Nat.sub_zero] at h3 h4 h5
  rw [hempty, List.nil_append] at h1
  rw [hempty] at h6
  rw [h1]
  exact ⟨h2, h3, h4, h5, h6⟩

/-- C15 at the threshold 100 and three sends to endpoint `B` of 60, 60 and 100 bytes, 220
bytes in all: two of the three queued buffers are altered, in two bits altogether, and the
counter `bytes` of `sendToB` ends at 80. -/
theorem sends_flip_one_bit_per_threshold_bytes_example :
    sentBytes ([(List.replicate 60 65, 0, 0), (List.replicate 60 66, 3, 1),
      (List.replicate 100 67, 5, 2)].take 3) = 220 ∧
    alteredBuffers
        (sentBuffers ([(List.replicate 60 65, 0, 0), (List.replicate 60 66, 3, 1),
          (List.replicate 100 67, 5, 2)].take 3))
        (((NoisyChannel.new 100).sendAll Direction.B
          ([(List.replicate 60 65, 0, 0), (List.replicate 60 66, 3, 1),
            (List.replicate 100 67, 5, 2)].take 3)).buffer Direction.B) =
      sentBytes ([(List.replicate 60 65, 0, 0), (List.replicate 60 66, 3, 1),
        (List.replicate 100 67, 5, 2)].take 3) / 100 ∧
    ((NoisyChannel.new 100).sendAll Direction.B
        ([(List.replicate 60 65, 0, 0), (List.replicate 60 66, 3, 1),
          (List.replicate 100 67, 5, 2)].take 3)).validBytes Direction.B =
      100 - sentBytes ([(List.replicate 60 65, 0, 0), (List.replicate 60 66, 3, 1),
        (List.replicate 100 67, 5, 2)].take 3) % 100 :=
  ⟨by decide,
    (sends_flip_one_bit_per_threshold_bytes 100 Direction.B
      [(List.replicate 60 65, 0, 0), (List.replicate 60 66, 3, 1),
        (List.replicate 100 67, 5, 2)] 3 (by decide) (by decide) (by decide)).2.1,
    (sends_flip_one_bit_per_threshold_bytes 100 Direction.B
      [(List.replicate 60 65, 0, 0), (List.replicate 60 66, 3, 1),
        (List.replicate 100 67, 5, 2)] 3 (by decide) (by decide) (by decide)).2.2.2.1⟩

end SnWARQ
